import Mathlib

/-!
Verification development for `src/utils/property_extractor.py`.

The script has two stages:

* a batch fetcher (`fetch_details_for_batch`, `generate_material_bank`)
  that partitions a CID range into chunks, queries PubChem once per chunk,
  and accumulates the accepted records into a dict keyed by CID;
* a property enricher (`process_materials`) that walks a pandas DataFrame
  row by row, reading attributes off external `thermo.Chemical` objects and
  enthalpies of mixing off external `thermo.Mixture` objects, with
  exception-to-NaN fallback, and finally writes the table to parquet.

The embedding below models mutable pandas frames as explicit values
(label-addressed association rows, mirroring `.loc` semantics including
enlargement on writes to absent labels), HTTP responses as explicit data,
and the two external thermo constructors as an oracle structure `ChemLib`.
Console prints are modelled as returned log lists.
-/

set_option maxRecDepth 100000

set_option maxHeartbeats 600000

namespace PropExt

/-- A JSON property item of a PubChem batch response, as accessed by
`prop.get('CID')`, `prop.get('IsomericSMILES')`, `prop.get('IUPACName')`,
`prop.get('MolecularFormula')`: each field may be absent. -/
structure Item where
  cid : Option Nat
  smiles : Option String
  name : Option String
  formula : Option String
deriving DecidableEq, Repr

/-- An element of the `Properties` JSON list. `good` is a JSON object (on
which `.get` succeeds); `bad` is a non-object element, on which
`prop.get(...)` raises mid-loop and control jumps to the `except` clause. -/
inductive RawItem where
  | good : Item → RawItem
  | bad : RawItem
deriving DecidableEq, Repr

/-- The parsed body of an HTTP response: either the `Properties` list
(possibly empty, covering the `.get(..., {})`/`.get(..., [])` defaults), or
a failure of `response.json()` / the `.get` chain before the loop starts. -/
inductive Body where
  | parseOk : List RawItem → Body
  | parseErr : Body
deriving DecidableEq, Repr

/-- An HTTP response: status code plus body. -/
structure Response where
  status : Nat
  body : Body
deriving DecidableEq, Repr

/-- The record stored per CID by the fetcher:
`{'smiles': ..., 'name': ..., 'formula': ...}`. -/
structure CompoundRec where
  smiles : String
  name : Option String
  formula : Option String
deriving DecidableEq, Repr

/-- Python-dict insertion on an association list: replaces the value at an
existing key in place, otherwise appends at the end (dict ordering). -/
def dictInsert : List (Nat × CompoundRec) → Nat → CompoundRec → List (Nat × CompoundRec)
  | [], k, v => [(k, v)]
  | kv :: t, k, v => if kv.1 = k then (k, v) :: t else kv :: dictInsert t k v

/-- Key lookup in the CID dict. -/
def dictFind (k : Nat) : List (Nat × CompoundRec) → Option CompoundRec
  | [] => none
  | kv :: t => if kv.1 = k then some kv.2 else dictFind k t

/-- The `for prop in properties` loop of `fetch_details_for_batch`: walks the
items, inserting `{'smiles','name','formula'}` under `CID` whenever both
`cid` and `smiles` are truthy (`if cid and smiles`), and stopping with an
exception flag when a non-object item is reached (the partial dict built so
far is kept — `batch_data` is mutated in place inside the `try`). -/
def procItems (d : List (Nat × CompoundRec)) : List RawItem → List (Nat × CompoundRec) × Bool
  | [] => (d, false)
  | RawItem.bad :: _ => (d, true)
  | RawItem.good it :: rest =>
    match it.cid, it.smiles with
    | some c, some s =>
      if c ≠ 0 ∧ s ≠ "" then procItems (dictInsert d c ⟨s, it.name, it.formula⟩) rest
      else procItems d rest
    | some _, none => procItems d rest
    | none, _ => procItems d rest

/-- Log line of the `else` branch on a non-200 status. -/
def failMsg (cids : List Nat) (status : Nat) : String :=
  "Failed to retrieve batch " ++ toString (cids.headD 0) ++ "-" ++
    toString (cids.getLastD 0) ++ ": Status code " ++ toString status

/-- Log line of the `except` clause around response parsing. -/
def errMsgBatch (cids : List Nat) : String :=
  "Error processing batch " ++ toString (cids.headD 0) ++ "-" ++ toString (cids.getLastD 0)

/-- Shallow embedding of `fetch_details_for_batch(cids)`. The HTTP response
for the request is passed in explicitly. Returns the `batch_data` dict and
the printed log lines. -/
def fetch_details_for_batch (cids : List Nat) (resp : Response) :
    List (Nat × CompoundRec) × List String :=
  if resp.status = 200 then
    match resp.body with
    | Body.parseOk items =>
      let r := procItems [] items
      (r.1, if r.2 then [errMsgBatch cids] else [])
    | Body.parseErr => ([], [errMsgBatch cids])
  else ([], [failMsg cids resp.status])

/-- The `Properties` item list a response parses to (empty when the body is
unparseable — no item is ever looped over in that case). -/
def respItems (resp : Response) : List RawItem :=
  match resp.body with
  | Body.parseOk its => its
  | Body.parseErr => []

/-- The CID list `list(range(start_cid, end_cid + 1))`. -/
def cidList (start_cid end_cid : Nat) : List Nat :=
  List.range' start_cid (end_cid + 1 - start_cid)

/-- Fuel-bounded slicing loop; the fuel only serves to make the recursion
structural, and `chunks` always supplies enough of it (each step consumes at
least one list element when the batch size is nonzero). -/
def chunksAux : Nat → List Nat → Nat → List (List Nat)
  | 0, _, _ => []
  | _ + 1, [], _ => []
  | fuel + 1, a :: t, bs => (a :: t).take bs :: chunksAux fuel ((a :: t).drop bs) bs

/-- The batching loop `for i in range(0, len(cid_list), batch_size):
batch = cid_list[i:i + batch_size]`, as the list of successive slices.
For `batch_size = 0` Python's `range` raises `ValueError`; the claims only
concern positive batch sizes, so that case is mapped to no chunks. -/
def chunks (l : List Nat) (batch_size : Nat) : List (List Nat) :=
  if batch_size = 0 then [] else chunksAux l.length l batch_size

/-- Python-dict `update`: inserts the entries of `upd` in order. -/
def dictUpdate (d upd : List (Nat × CompoundRec)) : List (Nat × CompoundRec) :=
  upd.foldl (fun acc kv => dictInsert acc kv.1 kv.2) d

/-- Progress print `Batch {i // batch_size + 1} completed` (`k` is the
0-based chunk counter). -/
def batchMsg (k : Nat) : String := "Batch " ++ toString (k + 1) ++ " completed"

/-- The fetch loop of `generate_material_bank`: one `fetch_details_for_batch`
call per chunk (`net` supplies the response each request receives), merging
into `smiles_data` by `dict.update` and accumulating the printed lines. -/
def genFold (net : List Nat → Response) (k : Nat)
    (acc : List (Nat × CompoundRec) × List String) :
    List (List Nat) → List (Nat × CompoundRec) × List String
  | [] => acc
  | b :: rest =>
    let r := fetch_details_for_batch b (net b)
    genFold net (k + 1) (dictUpdate acc.1 r.1, acc.2 ++ r.2 ++ [batchMsg k]) rest

/-- Shallow embedding of `generate_material_bank(start_cid, end_cid,
batch_size)` up to the final `DataFrame.from_dict`: the accumulated
`smiles_data` dict plus the printed log lines. -/
def generate_data (net : List Nat → Response) (start_cid end_cid batch_size : Nat) :
    List (Nat × CompoundRec) × List String :=
  genFold net 0 ([], []) (chunks (cidList start_cid end_cid) batch_size)

/-! ### The pandas DataFrame model

A frame is an ordered column-name list plus an ordered list of rows, each a
label (the index entry, an integer: either a positional 0..n-1 index or a
CID index) together with an association list of set cells.  A cell of an
existing column that was never explicitly set reads as `NaN`, matching a
pandas column created wholesale.  `.loc[label, col]` reads raise `KeyError`
(modelled as `none`) when the label or the column is absent; `.loc` writes
enlarge the frame when the label is absent, and update *every* row carrying
the label otherwise. -/

/-- A pandas cell value: a string, a float (exact rational model), or the
missing marker `NaN` (also standing for `None` stored in a cell). -/
inductive PValue where
  | vStr : String → PValue
  | vNum : ℚ → PValue
  | vNaN : PValue
deriving DecidableEq, Repr

/-- Lookup of a cell in a row association list. -/
def alookup (c : String) : List (String × PValue) → Option PValue
  | [] => none
  | kv :: t => if kv.1 = c then some kv.2 else alookup c t

/-- Set a cell in a row association list (replace first match or append). -/
def aset : List (String × PValue) → String → PValue → List (String × PValue)
  | [], c, v => [(c, v)]
  | kv :: t, c, v => if kv.1 = c then (c, v) :: t else kv :: aset t c v

/-- The value a cell of a row reads as: explicitly set, else `NaN`. -/
def cellOfRow (r : List (String × PValue)) (c : String) : PValue :=
  (alookup c r).getD PValue.vNaN

/-- One row: index label and set cells. -/
abbrev RowP := Int × List (String × PValue)

/-- First row carrying a label. -/
def findRow (lab : Int) : List RowP → Option RowP
  | [] => none
  | rl :: t => if rl.1 = lab then some rl else findRow lab t

/-- Whether some row carries a label. -/
def hasLabel (lab : Int) : List RowP → Bool
  | [] => false
  | rl :: t => if rl.1 = lab then true else hasLabel lab t

/-- Set column `c` to `v` in every row carrying `lab`. -/
def rowsUpd (lab : Int) (c : String) (v : PValue) : List RowP → List RowP
  | [] => []
  | rl :: t => (if rl.1 = lab then (rl.1, aset rl.2 c v) else rl) :: rowsUpd lab c v t

/-- The DataFrame model. -/
structure DataFrame where
  cols : List String
  rows : List RowP
deriving DecidableEq, Repr

/-- Read `df.loc[lab, c]`; `none` models a raised `KeyError`. -/
def DataFrame.locRead (df : DataFrame) (lab : Int) (c : String) : Option PValue :=
  if c ∈ df.cols then
    match findRow lab df.rows with
    | some rl => some (cellOfRow rl.2 c)
    | none => none
  else none

/-- Write `df.loc[lab, c] = v`: creates the column if absent, updates all
rows carrying `lab`, or enlarges the frame with a fresh row when none does. -/
def DataFrame.locWrite (df : DataFrame) (lab : Int) (c : String) (v : PValue) : DataFrame :=
  let cols := if c ∈ df.cols then df.cols else df.cols ++ [c]
  if hasLabel lab df.rows then ⟨cols, rowsUpd lab c v df.rows⟩
  else ⟨cols, df.rows ++ [(lab, [(c, v)])]⟩

/-- Whole-column assignment `df[c] = np.nan`: creates the column if absent
and sets the cell to `NaN` in every row. -/
def DataFrame.setColNaN (df : DataFrame) (c : String) : DataFrame :=
  ⟨if c ∈ df.cols then df.cols else df.cols ++ [c],
   df.rows.map (fun rl => (rl.1, aset rl.2 c PValue.vNaN))⟩

/-- The value the cell at `(lab, c)` holds (first row carrying `lab`),
reading `NaN` when the label is absent. -/
def DataFrame.cell (df : DataFrame) (lab : Int) (c : String) : PValue :=
  match findRow lab df.rows with
  | some rl => cellOfRow rl.2 c
  | none => PValue.vNaN

/-- Value stored for an optional JSON string field (`None` becomes the
missing marker when the dict is turned into a frame). -/
def optVal : Option String → PValue
  | some s => PValue.vStr s
  | none => PValue.vNaN

/-- One row of `pd.DataFrame.from_dict(smiles_data, orient='index')`:
labelled by CID, with the three record fields as columns. -/
def recRow (c : Nat) (r : CompoundRec) : RowP :=
  (Int.ofNat c, [("smiles", PValue.vStr r.smiles), ("name", optVal r.name),
    ("formula", optVal r.formula)])

/-- Shallow embedding of `generate_material_bank`: the CID-indexed frame
built from the accumulated dict, plus the log lines. -/
def generate_material_bank (net : List Nat → Response) (start_cid end_cid batch_size : Nat) :
    DataFrame × List String :=
  let r := generate_data net start_cid end_cid batch_size
  (if r.1.isEmpty then ⟨[], []⟩
   else ⟨["smiles", "name", "formula"], r.1.map (fun kv => recRow kv.1 kv.2)⟩, r.2)

/-! ### The property enricher -/

/-- The module-level `supported_properties` dict (`'heat capacity'` is
commented out in the source and hence absent). -/
def supported_properties : List (String × String) :=
  [("boiling point", "Tb"), ("melting point", "Tm"), ("viscosity", "mu"),
   ("density", "rho"), ("thermal conductivity", "k"), ("vapour pressure", "Psat"),
   ("permittivity", "permittivity"), ("flash point", "Tflash"),
   ("auto ignition temperature", "Tautoignition"), ("heat of combustion", "Hc"),
   ("enthalpy of formation", "Hf"), ("critical temperature", "Tc"),
   ("critical pressure", "Pc"), ("critical volume", "Vc"),
   ("triple point temperature", "Tt"), ("triple point pressure", "Pt"),
   ("surface tension", "sigma"), ("molecular weight", "MW"),
   ("Henry\x27s law constant", "Henry"), ("dipole moment", "dipole")]

/-- Catalog lookup. -/
def supLookup (p : String) : List (String × String) → Option String
  | [] => none
  | kv :: t => if kv.1 = p then some kv.2 else supLookup p t

/-- Python-dict insertion for the `valid_properties` dict. -/
def vpInsert : List (String × String) → String → String → List (String × String)
  | [], k, v => [(k, v)]
  | kv :: t, k, v => if kv.1 = k then (k, v) :: t else kv :: vpInsert t k v

/-- The validation loop: `valid_properties[prop] = supported_properties[prop]`
for each supported requested name, in request order. -/
def validProps (properties : List String) : List (String × String) :=
  properties.foldl (fun d p =>
    match supLookup p supported_properties with
    | some a => vpInsert d p a
    | none => d) []

/-- The `warnings.warn` message for an unsupported name. -/
def warnMsg (p : String) : String :=
  "Property \x27" ++ p ++ "\x27 is not supported and will be ignored."

/-- The non-fatal warnings emitted by the validation loop, in order. -/
def warningsOf (properties : List String) : List String :=
  (properties.filter (fun p => (supLookup p supported_properties).isNone)).map warnMsg

/-- The fixed solvent list. -/
def solvents : List String := ["water", "hexane", "ethanol", "acetonitrile"]

/-- The fixed mole fractions, each with the exact text its Python float
renders as in an f-string. -/
def fractions : List (String × ℚ) := [("0.25", 1/4), ("0.5", 1/2), ("0.75", 3/4)]

/-- The column name `f'{solvent}_fraction_{fraction}_enthalpy_mixing'`. -/
def mixColName (solvent fracStr : String) : String :=
  solvent ++ "_fraction_" ++ fracStr ++ "_enthalpy_mixing"

/-- The (solvent, fraction) pairs in nested-loop order (solvent outer). -/
def mixPairs : List (String × String × ℚ) :=
  (solvents.map (fun sv => fractions.map (fun fr => (sv, fr.1, fr.2)))).flatten

/-- The mixing-enthalpy column names, in creation order. -/
def mixingNames : List String := mixPairs.map (fun p => mixColName p.1 p.2.1)

/-- Result of reading an attribute off a `thermo.Chemical` object:
a value, an `AttributeError`, or an exception of any other class. -/
inductive AttrRes where
  | ok : PValue → AttrRes
  | attrError : AttrRes
  | otherError : AttrRes
deriving DecidableEq, Repr

/-- The external thermo library as an oracle: `chemical nv` models
`Chemical(nv)` (`none` = the constructor raised) yielding an object whose
attributes are read by key; `mixtureHm nv solvent z1 z2` models
`Mixture([nv, solvent], zs=[z1, z2]).Hm` (`none` = some exception during
construction or the attribute read). -/
structure ChemLib where
  chemical : PValue → Option (String → AttrRes)
  mixtureHm : PValue → String → ℚ → ℚ → Option ℚ

/-- Print in the outer `except` clause of the row loop. -/
def rowErrMsg (i : Nat) : String := "Error processing material at index " ++ toString i

/-- Print after each row. -/
def rowDoneMsg (i : Nat) : String := "Material number " ++ toString i ++ " processed"

/-- The per-property loop: writes the attribute value, or `NaN` on
`AttributeError`; any other exception escapes to the per-row handler with
the writes made so far kept (in-place mutation). -/
def propLoop (df : DataFrame) (lab : Int) (ob : String → AttrRes) :
    List (String × String) → DataFrame × Bool
  | [] => (df, false)
  | pa :: rest =>
    match ob pa.2 with
    | AttrRes.ok v => propLoop (df.locWrite lab pa.1 v) lab ob rest
    | AttrRes.attrError => propLoop (df.locWrite lab pa.1 PValue.vNaN) lab ob rest
    | AttrRes.otherError => (df, true)

/-- One mixing-enthalpy computation: re-reads `df.loc[i, 'name']`, builds the
mixture with weights `(fraction, 1 - fraction)` and stores `Hm`; on any
exception (including the name read) stores `NaN` for that column. -/
def mixStep (lib : ChemLib) (df : DataFrame) (lab : Int) (sv fs : String) (fv : ℚ) :
    DataFrame :=
  let c := mixColName sv fs
  match df.locRead lab "name" with
  | none => df.locWrite lab c PValue.vNaN
  | some nv =>
    match lib.mixtureHm nv sv fv (1 - fv) with
    | some q => df.locWrite lab c (PValue.vNum q)
    | none => df.locWrite lab c PValue.vNaN

/-- The nested solvent/fraction loop. -/
def mixLoop (lib : ChemLib) (lab : Int) (df : DataFrame) :
    List (String × String × ℚ) → DataFrame
  | [] => df
  | p :: rest => mixLoop lib lab (mixStep lib df lab p.1 p.2.1 p.2.2) rest

/-- One iteration of the row loop (index `i`): reads the display name,
constructs the `Chemical`, runs the property loop and then the mixing loop;
the outer `except Exception` turns a name-read `KeyError`, a constructor
failure, or a non-`AttributeError` escaping the property loop into a logged
skip that keeps the frame as mutated so far. -/
def processRow (lib : ChemLib) (vprops : List (String × String)) (df : DataFrame)
    (i : Nat) : DataFrame × List String :=
  match df.locRead (Int.ofNat i) "name" with
  | none => (df, [rowErrMsg i, rowDoneMsg i])
  | some nv =>
    match lib.chemical nv with
    | none => (df, [rowErrMsg i, rowDoneMsg i])
    | some ob =>
      let r := propLoop df (Int.ofNat i) ob vprops
      if r.2 then (r.1, [rowErrMsg i, rowDoneMsg i])
      else (mixLoop lib (Int.ofNat i) r.1 mixPairs, [rowDoneMsg i])

/-- The row loop over the index list `range(material_bank.shape[0])`. -/
def processLoop (lib : ChemLib) (vprops : List (String × String)) (df : DataFrame) :
    List Nat → DataFrame × List String
  | [] => (df, [])
  | i :: rest =>
    let r := processRow lib vprops df i
    let r2 := processLoop lib vprops r.1 rest
    (r2.1, r.2 ++ r2.2)

/-- The outcome of `process_materials`: the final frame (whose columns and
cells are what `to_parquet(..., index=False)` writes), the warnings, the
printed log lines, and the output file name. -/
structure ProcResult where
  df : DataFrame
  warnings : List String
  logs : List String
  outputFile : String
deriving Repr

/-- Shallow embedding of `process_materials(material_bank, properties,
run_name)`: validates the names, pre-creates the mixing columns, runs the
row loop over `range(shape[0])`, and names the parquet output. -/
def process_materials (lib : ChemLib) (material_bank : DataFrame)
    (properties : List String) (run_name : String) : ProcResult :=
  let vprops := validProps properties
  let warns := warningsOf properties
  let df0 := mixingNames.foldl DataFrame.setColNaN material_bank
  let n := df0.rows.length
  let r := processLoop lib vprops df0 (List.range n)
  ⟨r.1, warns, r.2, run_name ++ ".parquet"⟩

/-! ### Observation helpers used by the statements -/

/-- The rows of a frame carrying a given index label, in order. -/
def rowsWithLabel (lab : Int) : List RowP → List RowP
  | [] => []
  | rl :: t => if rl.1 = lab then rl :: rowsWithLabel lab t else rowsWithLabel lab t

/-- Setting each listed cell of a row to `NaN`, in order (the effect the
mixing-column pre-creation has on one row). -/
def naNFill (names : List String) (r : List (String × PValue)) : List (String × PValue) :=
  names.foldl (fun r2 c => aset r2 c PValue.vNaN) r

/-- The cell value the property loop stores for an attribute read: the value
on success, the missing marker on `AttributeError`. -/
def attrVal : AttrRes → PValue
  | AttrRes.ok v => v
  | AttrRes.attrError => PValue.vNaN
  | AttrRes.otherError => PValue.vNaN

/-- The cell value the mixing loop stores for a (solvent, fraction) pair
given the row's name value: `Mixture([name, solvent], zs=[f, 1-f]).Hm` on
success, the missing marker on any exception. -/
def mixVal (lib : ChemLib) (nv : PValue) (sv : String) (fv : ℚ) : PValue :=
  match lib.mixtureHm nv sv fv (1 - fv) with
  | some q => PValue.vNum q
  | none => PValue.vNaN

/-- Whether a cell holds a numeric value or the missing marker. -/
def numOrNaN : PValue → Bool
  | PValue.vNum _ => true
  | PValue.vNaN => true
  | PValue.vStr _ => false

/-- Every mixing-enthalpy cell of every row holds a numeric value or the
missing marker. -/
def MixOK (df : DataFrame) : Prop :=
  ∀ rl ∈ df.rows, ∀ c ∈ mixingNames, numOrNaN (cellOfRow rl.2 c) = true

/-! ### Concrete fixtures used by counterexamples and witnesses -/

/-- A response whose `Properties` list holds one well-formed item for CID 7
followed by a malformed element: iteration reaches the bad element only
after inserting CID 7. -/
def respPartial : Response :=
  ⟨200, Body.parseOk [RawItem.good ⟨some 7, some "C", none, none⟩, RawItem.bad]⟩

/-- A library whose chemistry object echoes the constructor argument as
every attribute value, and whose mixtures always raise. -/
def libEcho : ChemLib :=
  ⟨fun v => some (fun _ => AttrRes.ok v), fun _ _ _ _ => none⟩

/-- A library for which construction fails exactly on a missing (`NaN`)
name, all attribute reads yield 1, and all mixtures yield 2. -/
def libSkipNaN : ChemLib :=
  ⟨fun v => match v with
    | PValue.vNaN => none
    | _ => some (fun _ => AttrRes.ok (PValue.vNum 1)),
   fun _ _ _ _ => some 2⟩

/-- A library whose attribute reads always raise `AttributeError` and whose
mixtures yield 3. -/
def libAttrErr : ChemLib :=
  ⟨fun _ => some (fun _ => AttrRes.attrError), fun _ _ _ _ => some 3⟩

/-- An object whose melting-point attribute (`Tm`) raises an exception that
is not an `AttributeError` while every other attribute yields 5. -/
def obSplit : String → AttrRes :=
  fun a => if a = "Tm" then AttrRes.otherError else AttrRes.ok (PValue.vNum 5)

/-- A library built from `obSplit`, with every mixture yielding 3. -/
def libSplit : ChemLib :=
  ⟨fun _ => some obSplit, fun _ _ _ _ => some 3⟩

/-- A one-row bank, positionally indexed. -/
def dfOne : DataFrame :=
  ⟨["smiles", "name", "formula"],
   [(0, [("smiles", PValue.vStr "C"), ("name", PValue.vStr "methane"),
     ("formula", PValue.vStr "CH4")])]⟩

/-- A two-row bank whose first row has a missing name. -/
def dfTwo : DataFrame :=
  ⟨["smiles", "name", "formula"],
   [(0, [("smiles", PValue.vStr "O"), ("name", PValue.vNaN),
     ("formula", PValue.vStr "H2O")]),
    (1, [("smiles", PValue.vStr "CCO"), ("name", PValue.vStr "ethanol"),
     ("formula", PValue.vStr "C2H6O")])]⟩

/-- A bank whose index labels disagree with the row positions: the row at
position 0 carries label 1 and vice versa. -/
def dfSwap : DataFrame :=
  ⟨["name"], [(1, [("name", PValue.vStr "A")]), (0, [("name", PValue.vStr "B")])]⟩

/-- A CID-indexed bank (labels 5 and 7), as `generate_material_bank`
produces. -/
def dfCid : DataFrame :=
  ⟨["smiles", "name", "formula"],
   [(5, [("smiles", PValue.vStr "C"), ("name", PValue.vStr "A"),
     ("formula", PValue.vStr "CH4")]),
    (7, [("smiles", PValue.vStr "O"), ("name", PValue.vStr "B"),
     ("formula", PValue.vStr "H2O")])]⟩

/-! ## Lemmas about the batching loop -/

/-- The fuel argument of `chunksAux` is irrelevant once it covers the list
length. -/
theorem chunksAux_congr : ∀ (f1 f2 : Nat) (l : List Nat) (bs : Nat), bs ≠ 0 →
    l.length ≤ f1 → l.length ≤ f2 → chunksAux f1 l bs = chunksAux f2 l bs := by
  intro f1
  induction f1 with
  | zero =>
    intro f2 l bs _ h1 _
    have hl : l = [] := List.length_eq_zero.mp (Nat.le_zero.mp h1)
    subst hl
    cases f2 <;> rfl
  | succ f ih =>
    intro f2 l bs hbs h1 h2
    cases l with
    | nil => cases f2 <;> rfl
    | cons a t =>
      cases f2 with
      | zero => exact absurd h2 (by simp)
      | succ f2p =>
        simp only [chunksAux]
        congr 1
        apply ih
        · exact hbs
        · simp only [List.length_drop, List.length_cons] at h1 ⊢
          omega
        · simp only [List.length_drop, List.length_cons] at h2 ⊢
          omega

/-- Unfolding: the empty list yields no chunks. -/
theorem chunks_nil (bs : Nat) : chunks [] bs = [] := by
  unfold chunks
  cases bs <;> rfl

/-- Unfolding: a nonempty list yields its `bs`-prefix followed by the chunks
of the rest. -/
theorem chunks_cons (l : List Nat) (bs : Nat) (hbs : bs ≠ 0) (hl : l ≠ []) :
    chunks l bs = l.take bs :: chunks (l.drop bs) bs := by
  cases l with
  | nil => exact absurd rfl hl
  | cons a t =>
    unfold chunks
    simp only [if_neg hbs]
    simp only [List.length_cons, chunksAux]
    congr 1
    apply chunksAux_congr _ _ _ _ hbs
    · simp only [List.length_drop, List.length_cons]
      omega
    · exact Nat.le_refl _

/-- Concatenating the chunks gives back the original list: the chunks are
contiguous, in order, and omit and duplicate nothing. -/
theorem chunks_flatten (bs : Nat) (hbs : bs ≠ 0) (l : List Nat) :
    (chunks l bs).flatten = l := by
  have key : ∀ (n : Nat) (l : List Nat), l.length ≤ n → (chunks l bs).flatten = l := by
    intro n
    induction n with
    | zero =>
      intro l h1
      have hl : l = [] := List.length_eq_zero.mp (Nat.le_zero.mp h1)
      subst hl
      rw [chunks_nil]
      rfl
    | succ n ih =>
      intro l h1
      by_cases hl : l = []
      · subst hl
        rw [chunks_nil]
        rfl
      · rw [chunks_cons l bs hbs hl, List.flatten_cons, ih]
        · exact List.take_append_drop bs l
        · have hpos : l.length ≠ 0 := fun h => hl (List.length_eq_zero.mp h)
          simp only [List.length_drop]
          omega
  exact key l.length l (Nat.le_refl _)

/-- The number of chunks is the ceiling of (list length / batch size). -/
theorem chunks_length (bs : Nat) (hbs : bs ≠ 0) (l : List Nat) :
    (chunks l bs).length = (l.length + bs - 1) / bs := by
  have key : ∀ (n : Nat) (l : List Nat), l.length ≤ n →
      (chunks l bs).length = (l.length + bs - 1) / bs := by
    intro n
    induction n with
    | zero =>
      intro l h1
      have hl : l = [] := List.length_eq_zero.mp (Nat.le_zero.mp h1)
      subst hl
      rw [chunks_nil]
      simp only [List.length_nil, Nat.zero_add]
      exact (Nat.div_eq_of_lt (by omega)).symm
    | succ n ih =>
      intro l h1
      by_cases hl : l = []
      · subst hl
        rw [chunks_nil]
        simp only [List.length_nil, Nat.zero_add]
        exact (Nat.div_eq_of_lt (by omega)).symm
      · have hpos : l.length ≠ 0 := fun h => hl (List.length_eq_zero.mp h)
        have hdrop : (List.drop bs l).length ≤ n := by
          simp only [List.length_drop]
          omega
        rw [chunks_cons l bs hbs hl, List.length_cons, ih _ hdrop]
        simp only [List.length_drop]
        have e2 : l.length + bs - 1 = (l.length - 1) + bs := by omega
        rw [e2, Nat.add_div_right _ (Nat.pos_of_ne_zero hbs)]
        rcases le_or_lt bs l.length with hge | hlt2
        · have e3 : l.length - bs + bs - 1 = l.length - 1 := by omega
          rw [e3]
        · have d1 : (l.length - bs + bs - 1) / bs = 0 := Nat.div_eq_of_lt (by omega)
          have d2 : (l.length - 1) / bs = 0 := Nat.div_eq_of_lt (by omega)
          rw [d1, d2]
  exact key l.length l (Nat.le_refl _)

/-- If an element occurs exactly once in the concatenation, it occurs in
exactly one of the chunks. -/
theorem countP_mem_of_count_flatten_one (c : Nat) :
    ∀ L : List (List Nat), L.flatten.count c = 1 →
      L.countP (fun ch => ch.contains c) = 1 := by
  intro L
  induction L with
  | nil => intro h; simp at h
  | cons hd tl ih =>
    intro h
    rw [List.flatten_cons, List.count_append] at h
    rcases Nat.eq_zero_or_pos (hd.count c) with hz | hp
    · have hmem : c ∉ hd := List.count_eq_zero.mp hz
      rw [List.countP_cons_of_neg, ih (by omega)]
      simp only [List.elem_eq_mem, decide_eq_true_eq]
      exact hmem
    · have h1 : hd.count c = 1 ∧ tl.flatten.count c = 0 := by omega
      have hmem : c ∈ hd := List.count_pos_iff.mp hp
      rw [List.countP_cons_of_pos, Nat.add_left_eq_self]
      · rw [List.countP_eq_zero]
        intro ch hch
        simp only [List.elem_eq_mem, decide_eq_true_eq]
        intro hcc
        have : c ∈ tl.flatten := List.mem_flatten.mpr ⟨ch, hch, hcc⟩
        have := List.count_eq_zero.mp h1.2
        exact this ‹c ∈ tl.flatten›
      · simp only [List.elem_eq_mem, decide_eq_true_eq]
        exact hmem

/-- Membership in the CID list is exactly membership in the inclusive range. -/
theorem mem_cidList (s e c : Nat) (hs : s ≤ c) (he : c ≤ e) : c ∈ cidList s e := by
  unfold cidList
  rw [List.mem_range'_1]
  omega

/-- The CID list has no duplicates. -/
theorem cidList_nodup (s e : Nat) : (cidList s e).Nodup :=
  List.nodup_range' s (e + 1 - s)

/-! ## Claim C1 -/

/-- C1 counterexample: for the inclusive range 1–250 (250 identifiers) with
batch size 100 the code issues chunks of sizes 100, 100 and 50 — not
100, 100, 51 as the claim states. -/
theorem c1_chunk_sizes_counterexample :
    ¬ (chunks (cidList 1 250) 100).map List.length = [100, 100, 51] := by
  decide

/-- C1 (amended): `generate_material_bank` partitions the inclusive range
`[start_cid, end_cid]` into contiguous chunks; for a positive batch size the
number of chunks is the ceiling of (range size / batch size), every
identifier of the range lies in exactly one chunk, and for range 1–250 with
batch size 100 exactly 3 chunks are issued, of sizes 100, 100 and 50. -/
theorem c1_chunking_partitions_range (start_cid end_cid batch_size : Nat)
    (hbs : 0 < batch_size) :
    (chunks (cidList start_cid end_cid) batch_size).length =
      ((end_cid + 1 - start_cid) + batch_size - 1) / batch_size ∧
    (chunks (cidList start_cid end_cid) batch_size).flatten = cidList start_cid end_cid ∧
    (∀ c : Nat, start_cid ≤ c → c ≤ end_cid →
      (chunks (cidList start_cid end_cid) batch_size).countP
        (fun ch => ch.contains c) = 1) ∧
    (chunks (cidList 1 250) 100).map List.length = [100, 100, 50] := by
  have hbs0 : batch_size ≠ 0 := Nat.pos_iff_ne_zero.mp hbs
  refine ⟨?_, ?_, ?_, by decide⟩
  · rw [chunks_length batch_size hbs0]
    simp only [cidList, List.length_range']
  · exact chunks_flatten batch_size hbs0 _
  · intro c hs he
    apply countP_mem_of_count_flatten_one
    rw [chunks_flatten batch_size hbs0]
    exact List.count_eq_one_of_mem (cidList_nodup _ _) (mem_cidList _ _ _ hs he)

/-- C1 witness: the amended statement applied to the 1–250 / 100 example and
the identifier 137. -/
theorem c1_chunking_partitions_range_witness :
    0 < 100 ∧
      (chunks (cidList 1 250) 100).countP (fun ch => ch.contains 137) = 1 :=
  ⟨by decide, (c1_chunking_partitions_range 1 250 100 (by decide)).2.2.1 137
    (by decide) (by decide)⟩

/-! ## Lemmas about the fetch loop -/

/-- Every entry of a dict after an insertion is the inserted pair or an
original entry. -/
theorem mem_dictInsert (d : List (Nat × CompoundRec)) (k : Nat) (v : CompoundRec)
    (x : Nat × CompoundRec) (hx : x ∈ dictInsert d k v) : x = (k, v) ∨ x ∈ d := by
  induction d with
  | nil =>
    simp only [dictInsert, List.mem_singleton] at hx
    exact Or.inl hx
  | cons kv t ih =>
    simp only [dictInsert] at hx
    by_cases hkey : kv.1 = k
    · rw [if_pos hkey] at hx
      rcases List.mem_cons.mp hx with h | h
      · exact Or.inl h
      · exact Or.inr (List.mem_cons_of_mem _ h)
    · rw [if_neg hkey] at hx
      rcases List.mem_cons.mp hx with h | h
      · exact Or.inr (h ▸ List.mem_cons_self _ _)
      · rcases ih h with h2 | h2
        · exact Or.inl h2
        · exact Or.inr (List.mem_cons_of_mem _ h2)

/-- A key carried by no entry is not found. -/
theorem dictFind_eq_none (c : Nat) (d : List (Nat × CompoundRec))
    (h : ∀ kv ∈ d, kv.1 ≠ c) : dictFind c d = none := by
  induction d with
  | nil => rfl
  | cons kv t ih =>
    simp only [dictFind]
    rw [if_neg (h kv (List.mem_cons_self _ _))]
    exact ih (fun x hx => h x (List.mem_cons_of_mem _ hx))

/-- Every entry the item loop produces is an original entry or comes from a
well-formed item with a truthy CID and a nonempty SMILES string. -/
theorem procItems_mem : ∀ (items : List RawItem) (d : List (Nat × CompoundRec))
    (x : Nat × CompoundRec), x ∈ (procItems d items).1 →
    x ∈ d ∨ ∃ it : Item, RawItem.good it ∈ items ∧ it.cid = some x.1 ∧
      it.smiles = some x.2.smiles ∧ x.2.smiles ≠ "" := by
  intro items
  induction items with
  | nil => intro d x hx; exact Or.inl hx
  | cons hd tl ih =>
    intro d x hx
    cases hd with
    | bad => exact Or.inl hx
    | good it =>
      simp only [procItems] at hx
      have step : ∀ d2 : List (Nat × CompoundRec), x ∈ (procItems d2 tl).1 →
          x ∈ d2 ∨ ∃ it2 : Item, RawItem.good it2 ∈ RawItem.good it :: tl ∧
            it2.cid = some x.1 ∧ it2.smiles = some x.2.smiles ∧ x.2.smiles ≠ "" := by
        intro d2 hx2
        rcases ih d2 x hx2 with h | ⟨it2, hmem, h2⟩
        · exact Or.inl h
        · exact Or.inr ⟨it2, List.mem_cons_of_mem _ hmem, h2⟩
      cases hcid : it.cid with
      | none =>
        rw [hcid] at hx
        exact step _ hx
      | some c =>
        cases hsm : it.smiles with
        | none =>
          rw [hcid, hsm] at hx
          exact step _ hx
        | some s =>
          rw [hcid, hsm] at hx
          simp only at hx
          by_cases hg : c ≠ 0 ∧ s ≠ ""
          · rw [if_pos hg] at hx
            rcases step _ hx with h | h
            · rcases mem_dictInsert _ _ _ _ h with h2 | h2
              · refine Or.inr ⟨it, List.mem_cons_self _ _, ?_, ?_, ?_⟩
                · rw [hcid, h2]
                · rw [hsm, h2]
                · rw [h2]
                  exact hg.2
              · exact Or.inl h2
            · exact Or.inr h
          · rw [if_neg hg] at hx
            exact step _ hx

/-- If every item carrying CID `c` has a missing or empty SMILES string,
the item loop never creates an entry keyed `c`. -/
theorem procItems_keys (c : Nat) : ∀ (items : List RawItem) (d : List (Nat × CompoundRec)),
    (∀ kv ∈ d, kv.1 ≠ c) →
    (∀ it : Item, RawItem.good it ∈ items → it.cid = some c →
      it.smiles = none ∨ it.smiles = some "") →
    ∀ kv ∈ (procItems d items).1, kv.1 ≠ c := by
  intro items
  induction items with
  | nil => intro d hd _ kv hkv; exact hd kv hkv
  | cons hd tl ih =>
    intro d hdinv hitems kv hkv
    cases hd with
    | bad => exact hdinv kv hkv
    | good it =>
      have hitems2 : ∀ it2 : Item, RawItem.good it2 ∈ tl → it2.cid = some c →
          it2.smiles = none ∨ it2.smiles = some "" :=
        fun it2 hmem => hitems it2 (List.mem_cons_of_mem _ hmem)
      cases hcid : it.cid with
      | none =>
        simp only [procItems, hcid] at hkv
        exact ih _ hdinv hitems2 kv hkv
      | some c2 =>
        cases hsm : it.smiles with
        | none =>
          simp only [procItems, hcid, hsm] at hkv
          exact ih _ hdinv hitems2 kv hkv
        | some s =>
          simp only [procItems, hcid, hsm] at hkv
          by_cases hg : c2 ≠ 0 ∧ s ≠ ""
          · rw [if_pos hg] at hkv
            have hc2 : c2 ≠ c := by
              intro he
              subst he
              rcases hitems it (List.mem_cons_self _ _) hcid with h | h
              · rw [hsm] at h
                exact Option.noConfusion h
              · rw [hsm] at h
                exact hg.2 (Option.some.inj h)
            refine ih _ ?_ hitems2 kv hkv
            intro kv2 hkv2
            rcases mem_dictInsert _ _ _ _ hkv2 with h | h
            · rw [h]
              exact hc2
            · exact hdinv kv2 h
          · rw [if_neg hg] at hkv
            exact ih _ hdinv hitems2 kv hkv

/-- The item loop raises no exception when no malformed item occurs. -/
theorem procItems_no_bad : ∀ (items : List RawItem) (d : List (Nat × CompoundRec)),
    RawItem.bad ∉ items → (procItems d items).2 = false := by
  intro items
  induction items with
  | nil => intro d _; rfl
  | cons hd tl ih =>
    intro d hnb
    cases hd with
    | bad => exact absurd (List.mem_cons_self _ _) hnb
    | good it =>
      have hnb2 : RawItem.bad ∉ tl := fun h => hnb (List.mem_cons_of_mem _ h)
      cases hcid : it.cid with
      | none =>
        simp only [procItems, hcid]
        exact ih _ hnb2
      | some c =>
        cases hsm : it.smiles with
        | none =>
          simp only [procItems, hcid, hsm]
          exact ih _ hnb2
        | some s =>
          simp only [procItems, hcid, hsm]
          by_cases hg : c ≠ 0 ∧ s ≠ ""
          · rw [if_pos hg]; exact ih _ hnb2
          · rw [if_neg hg]; exact ih _ hnb2

/-- A malformed item aborts the loop, keeping exactly the entries accepted
before it. -/
theorem procItems_append_bad : ∀ (pre : List RawItem) (rest : List RawItem)
    (d : List (Nat × CompoundRec)), RawItem.bad ∉ pre →
    procItems d (pre ++ RawItem.bad :: rest) = ((procItems d pre).1, true) := by
  intro pre
  induction pre with
  | nil => intro rest d _; rfl
  | cons hd tl ih =>
    intro rest d hnb
    cases hd with
    | bad => exact absurd (List.mem_cons_self _ _) hnb
    | good it =>
      have hnb2 : RawItem.bad ∉ tl := fun h => hnb (List.mem_cons_of_mem _ h)
      cases hcid : it.cid with
      | none =>
        simp only [List.cons_append, procItems, hcid]
        exact ih rest _ hnb2
      | some c =>
        cases hsm : it.smiles with
        | none =>
          simp only [List.cons_append, procItems, hcid, hsm]
          exact ih rest _ hnb2
        | some s =>
          simp only [List.cons_append, procItems, hcid, hsm]
          by_cases hg : c ≠ 0 ∧ s ≠ ""
          · rw [if_pos hg, if_pos hg]; exact ih rest _ hnb2
          · rw [if_neg hg, if_neg hg]; exact ih rest _ hnb2

/-! ## Claim C2 -/

/-- C2: a batch response item enters the result mapping of
`fetch_details_for_batch` only with a nonempty SMILES string (each stored
entry stems from an item carrying exactly that nonempty string), and a CID
all of whose items lack a SMILES string (missing or empty) gets no entry. -/
theorem c2_fetch_requires_nonempty_smiles (cids : List Nat) (resp : Response) :
    (∀ x ∈ (fetch_details_for_batch cids resp).1, x.2.smiles ≠ "" ∧
      ∃ it : Item, RawItem.good it ∈ respItems resp ∧ it.cid = some x.1 ∧
        it.smiles = some x.2.smiles) ∧
    (∀ c : Nat,
      (∀ it : Item, RawItem.good it ∈ respItems resp → it.cid = some c →
        it.smiles = none ∨ it.smiles = some "") →
      dictFind c (fetch_details_for_batch cids resp).1 = none) := by
  unfold fetch_details_for_batch
  by_cases hst : resp.status = 200
  · rw [if_pos hst]
    match hbody : resp.body with
    | Body.parseOk items =>
      have hitems : respItems resp = items := by
        unfold respItems
        rw [hbody]
      constructor
      · intro x hx
        simp only at hx
        rcases procItems_mem items [] x hx with h | ⟨it, hmem, h1, h2, h3⟩
        · exact absurd h (List.not_mem_nil x)
        · exact ⟨h3, it, hitems ▸ hmem, h1, h2⟩
      · intro c hc
        simp only
        apply dictFind_eq_none
        apply procItems_keys c items []
        · intro kv hkv
          exact absurd hkv (List.not_mem_nil kv)
        · rw [hitems] at hc
          exact hc
    | Body.parseErr =>
      constructor
      · intro x hx
        exact absurd hx (List.not_mem_nil x)
      · intro c _
        rfl
  · rw [if_neg hst]
    constructor
    · intro x hx
      exact absurd hx (List.not_mem_nil x)
    · intro c _
      rfl

/-- C2 witness: a chunk whose single item for CID 5 carries an empty SMILES
string yields no entry for 5. -/
theorem c2_fetch_requires_nonempty_smiles_witness :
    dictFind 5 (fetch_details_for_batch [5]
      ⟨200, Body.parseOk [RawItem.good ⟨some 5, some "", some "x", none⟩]⟩).1 = none :=
  (c2_fetch_requires_nonempty_smiles [5]
    ⟨200, Body.parseOk [RawItem.good ⟨some 5, some "", some "x", none⟩]⟩).2 5 (by
      intro it hmem _
      have h1 : RawItem.good it = RawItem.good ⟨some 5, some "", some "x", none⟩ := by
        simpa [respItems] using hmem
      cases h1
      exact Or.inr rfl)

/-! ## Lemmas about the generator loop -/

/-- The accumulated dict of the fetch loop is a fold of dict updates over
the chunks (independent of the chunk counter and of the logs). -/
theorem genFold_fst (net : List Nat → Response) :
    ∀ (l : List (List Nat)) (k : Nat) (acc : List (Nat × CompoundRec) × List String),
    (genFold net k acc l).1 =
      l.foldl (fun d b => dictUpdate d (fetch_details_for_batch b (net b)).1) acc.1 := by
  intro l
  induction l with
  | nil => intro k acc; rfl
  | cons b rest ih =>
    intro k acc
    simp only [genFold, List.foldl_cons]
    exact ih _ _

/-- Log lines already accumulated persist through the fetch loop. -/
theorem genFold_logs_mono (net : List Nat → Response) (x : String) :
    ∀ (l : List (List Nat)) (k : Nat) (acc : List (Nat × CompoundRec) × List String),
    x ∈ acc.2 → x ∈ (genFold net k acc l).2 := by
  intro l
  induction l with
  | nil => intro k acc hx; exact hx
  | cons b rest ih =>
    intro k acc hx
    simp only [genFold]
    exact ih _ _ (List.mem_append_left _ (List.mem_append_left _ hx))

/-- Every log line a chunk's fetch produces appears in the loop's output. -/
theorem genFold_logs_mem (net : List Nat → Response) (x : String) :
    ∀ (l : List (List Nat)) (k : Nat) (acc : List (Nat × CompoundRec) × List String)
    (b : List Nat), b ∈ l → x ∈ (fetch_details_for_batch b (net b)).2 →
    x ∈ (genFold net k acc l).2 := by
  intro l
  induction l with
  | nil => intro k acc b hb _; exact absurd hb (List.not_mem_nil b)
  | cons b0 rest ih =>
    intro k acc b hb hx
    rcases List.mem_cons.mp hb with h | h
    · subst h
      simp only [genFold]
      exact genFold_logs_mono net x rest _ _
        (List.mem_append_left _ (List.mem_append_right _ hx))
    · simp only [genFold]
      exact ih _ _ b h hx

/-- Removing a fold element on which the step is the identity does not
change a left fold. -/
theorem foldl_eraseIdx_of_id {α β : Type} (f : β → α → β) :
    ∀ (l : List α) (k : Nat) (hk : k < l.length) (init : β),
    (∀ acc : β, f acc (l.get ⟨k, hk⟩) = acc) →
    l.foldl f init = (l.eraseIdx k).foldl f init := by
  intro l
  induction l with
  | nil => intro k hk; exact absurd hk (by simp)
  | cons a t ih =>
    intro k hk init hid
    cases k with
    | zero =>
      simp only [List.eraseIdx_cons_zero, List.foldl_cons]
      have h0 : (a :: t).get ⟨0, hk⟩ = a := rfl
      rw [h0] at hid
      rw [hid init]
    | succ kp =>
      simp only [List.eraseIdx_cons_succ, List.foldl_cons]
      exact ih kp (Nat.lt_of_succ_lt_succ hk) (f init a) hid

/-! ## Claim C3 -/

/-- C3: a chunk whose HTTP response has a non-success status contributes an
empty mapping and exactly the one failure log line (no retry), the failure
line is printed by the run, and the accumulated dict equals the fold over
the remaining chunks — the other chunks' contributions are unaffected and
the run is not aborted. -/
theorem c3_non_success_chunk_contributes_nothing (net : List Nat → Response)
    (start_cid end_cid batch_size k : Nat)
    (hk : k < (chunks (cidList start_cid end_cid) batch_size).length)
    (hst : (net ((chunks (cidList start_cid end_cid) batch_size).get ⟨k, hk⟩)).status ≠ 200) :
    fetch_details_for_batch ((chunks (cidList start_cid end_cid) batch_size).get ⟨k, hk⟩)
        (net ((chunks (cidList start_cid end_cid) batch_size).get ⟨k, hk⟩)) =
      ([], [failMsg ((chunks (cidList start_cid end_cid) batch_size).get ⟨k, hk⟩)
        (net ((chunks (cidList start_cid end_cid) batch_size).get ⟨k, hk⟩)).status]) ∧
    (generate_data net start_cid end_cid batch_size).1 =
      ((chunks (cidList start_cid end_cid) batch_size).eraseIdx k).foldl
        (fun d b => dictUpdate d (fetch_details_for_batch b (net b)).1) [] ∧
    failMsg ((chunks (cidList start_cid end_cid) batch_size).get ⟨k, hk⟩)
        (net ((chunks (cidList start_cid end_cid) batch_size).get ⟨k, hk⟩)).status ∈
      (generate_data net start_cid end_cid batch_size).2 := by
  have hfetch : fetch_details_for_batch
      ((chunks (cidList start_cid end_cid) batch_size).get ⟨k, hk⟩)
      (net ((chunks (cidList start_cid end_cid) batch_size).get ⟨k, hk⟩)) =
      ([], [failMsg ((chunks (cidList start_cid end_cid) batch_size).get ⟨k, hk⟩)
        (net ((chunks (cidList start_cid end_cid) batch_size).get ⟨k, hk⟩)).status]) := by
    unfold fetch_details_for_batch
    rw [if_neg hst]
  refine ⟨hfetch, ?_, ?_⟩
  · unfold generate_data
    rw [genFold_fst]
    apply foldl_eraseIdx_of_id _ _ k hk
    intro acc
    rw [hfetch]
    rfl
  · unfold generate_data
    refine genFold_logs_mem net _ _ 0 ([], [])
      ((chunks (cidList start_cid end_cid) batch_size).get ⟨k, hk⟩)
      (List.get_mem _ k hk) ?_
    rw [hfetch]
    exact List.mem_singleton.mpr rfl

/-- C3 witness: range 1–5 with batch size 2; the second chunk `[3, 4]`
receives a 500 response and the failure line appears in the run's log. -/
theorem c3_non_success_chunk_contributes_nothing_witness :
    1 < (chunks (cidList 1 5) 2).length ∧
      failMsg ((chunks (cidList 1 5) 2).get ⟨1, by decide⟩)
          ((fun _ : List Nat => (⟨500, Body.parseErr⟩ : Response))
            ((chunks (cidList 1 5) 2).get ⟨1, by decide⟩)).status ∈
        (generate_data (fun _ => ⟨500, Body.parseErr⟩) 1 5 2).2 :=
  ⟨by decide,
    (c3_non_success_chunk_contributes_nothing (fun _ => ⟨500, Body.parseErr⟩) 1 5 2 1
      (by decide) (by decide)).2.2⟩

/-! ## Claim C4 -/

/-- C4 counterexample: a chunk whose parsing raises after the first item was
already processed keeps that item — the returned mapping is *not* empty, so
the chunk does not contribute zero records as the claim states (the parse
error is logged). -/
theorem c4_partial_chunk_kept_counterexample :
    (fetch_details_for_batch [7, 8] respPartial).1 =
      [(7, ⟨"C", none, none⟩)] ∧
    (fetch_details_for_batch [7, 8] respPartial).1 ≠ [] ∧
    (fetch_details_for_batch [7, 8] respPartial).2 = [errMsgBatch [7, 8]] := by
  refine ⟨rfl, ?_, rfl⟩
  decide

/-- C4 (amended): a response body that fails to parse before the item loop
starts contributes no records; an exception raised at a malformed item
mid-loop keeps exactly the records accepted from the items before it and
drops the rest of the chunk; the error is logged in both cases. -/
theorem c4_parse_failure_partial_contribution (cids : List Nat)
    (pre rest : List RawItem) (hpre : RawItem.bad ∉ pre) :
    fetch_details_for_batch cids ⟨200, Body.parseErr⟩ = ([], [errMsgBatch cids]) ∧
    fetch_details_for_batch cids ⟨200, Body.parseOk (pre ++ RawItem.bad :: rest)⟩ =
      ((procItems [] pre).1, [errMsgBatch cids]) := by
  constructor
  · rfl
  · have h := procItems_append_bad pre rest [] hpre
    simp [fetch_details_for_batch, h]

/-- C4 witness: the amended statement at the concrete chunk of
`respPartial`: the record for CID 7 accepted before the malformed item is
kept. -/
theorem c4_parse_failure_partial_contribution_witness :
    fetch_details_for_batch [7, 8]
        ⟨200, Body.parseOk ([RawItem.good ⟨some 7, some "C", none, none⟩] ++
          RawItem.bad :: [])⟩ =
      ((procItems [] [RawItem.good ⟨some 7, some "C", none, none⟩]).1,
        [errMsgBatch [7, 8]]) :=
  (c4_parse_failure_partial_contribution [7, 8]
    [RawItem.good ⟨some 7, some "C", none, none⟩] [] (by decide)).2

/-! ## Lemmas about the DataFrame model -/

/-- Looking up the cell just set. -/
theorem alookup_aset_self (c : String) (v : PValue) :
    ∀ r : List (String × PValue), alookup c (aset r c v) = some v := by
  intro r
  induction r with
  | nil => simp [aset, alookup]
  | cons kv t ih =>
    by_cases h : kv.1 = c
    · simp [aset, alookup, h]
    · simp only [aset, if_neg h, alookup]
      exact ih

/-- Setting one cell leaves the others unchanged. -/
theorem alookup_aset_ne (c c2 : String) (v : PValue) (hne : c2 ≠ c) :
    ∀ r : List (String × PValue), alookup c2 (aset r c v) = alookup c2 r := by
  intro r
  induction r with
  | nil =>
    simp only [aset, alookup]
    rw [if_neg (fun h2 : c = c2 => hne h2.symm)]
  | cons kv t ih =>
    by_cases h : kv.1 = c
    · simp only [aset, if_pos h, alookup]
      rw [if_neg (fun h2 : c = c2 => hne h2.symm),
        if_neg (fun h2 : kv.1 = c2 => hne (h2.symm.trans h))]
    · simp only [aset, if_neg h, alookup]
      by_cases h2 : kv.1 = c2
      · rw [if_pos h2, if_pos h2]
      · rw [if_neg h2, if_neg h2]
        exact ih

/-- Cell view of `aset`, same column. -/
theorem cellOfRow_aset_self (r : List (String × PValue)) (c : String) (v : PValue) :
    cellOfRow (aset r c v) c = v := by
  unfold cellOfRow
  rw [alookup_aset_self]
  rfl

/-- Cell view of `aset`, other columns. -/
theorem cellOfRow_aset_ne (r : List (String × PValue)) (c c2 : String) (v : PValue)
    (hne : c2 ≠ c) : cellOfRow (aset r c v) c2 = cellOfRow r c2 := by
  unfold cellOfRow
  rw [alookup_aset_ne c c2 v hne]

/-- A cell listed in a `NaN` fill reads as an explicitly set `NaN`. -/
theorem alookup_naNFill_mem (c : String) :
    ∀ (names : List String) (r : List (String × PValue)), c ∈ names →
    alookup c (naNFill names r) = some PValue.vNaN := by
  intro names
  induction names with
  | nil => intro r h; exact absurd h (List.not_mem_nil c)
  | cons n rest ih =>
    intro r hmem
    by_cases h : c ∈ rest
    · exact ih _ h
    · have hc : c = n := by
        rcases List.mem_cons.mp hmem with h2 | h2
        · exact h2
        · exact absurd h2 h
      subst hc
      have hstable : ∀ (names2 : List String) (r2 : List (String × PValue)), c ∉ names2 →
          alookup c (naNFill names2 r2) = alookup c r2 := by
        intro names2
        induction names2 with
        | nil => intro r2 _; rfl
        | cons m rest2 ih2 =>
          intro r2 hnm
          have hm : c ≠ m := fun h2 => hnm (h2 ▸ List.mem_cons_self _ _)
          have hrest : c ∉ rest2 := fun h2 => hnm (List.mem_cons_of_mem _ h2)
          show alookup c (naNFill rest2 (aset r2 m PValue.vNaN)) = alookup c r2
          rw [ih2 _ hrest, alookup_aset_ne m c PValue.vNaN hm]
      show alookup c (naNFill rest (aset r c PValue.vNaN)) = some PValue.vNaN
      rw [hstable rest _ h, alookup_aset_self]

/-- Cells not listed in a `NaN` fill are unchanged. -/
theorem alookup_naNFill_not_mem (c : String) :
    ∀ (names : List String) (r : List (String × PValue)), c ∉ names →
    alookup c (naNFill names r) = alookup c r := by
  intro names
  induction names with
  | nil => intro r _; rfl
  | cons m rest ih =>
    intro r hnm
    have hm : c ≠ m := fun h2 => hnm (h2 ▸ List.mem_cons_self _ _)
    have hrest : c ∉ rest := fun h2 => hnm (List.mem_cons_of_mem _ h2)
    show alookup c (naNFill rest (aset r m PValue.vNaN)) = alookup c r
    rw [ih _ hrest, alookup_aset_ne m c PValue.vNaN hm]

/-- `rowsUpd` transforms the row `findRow` returns, and nothing else,
for the written label. -/
theorem findRow_rowsUpd_self (lab : Int) (c : String) (v : PValue) :
    ∀ rows : List RowP, findRow lab (rowsUpd lab c v rows) =
      Option.map (fun rl => (rl.1, aset rl.2 c v)) (findRow lab rows) := by
  intro rows
  induction rows with
  | nil => rfl
  | cons rl t ih =>
    by_cases h : rl.1 = lab
    · simp [rowsUpd, findRow, h]
    · simp [rowsUpd, findRow, h, ih]

/-- `rowsUpd` leaves the first row of any other label untouched. -/
theorem findRow_rowsUpd_ne (lab lab2 : Int) (c : String) (v : PValue)
    (hne : lab2 ≠ lab) :
    ∀ rows : List RowP, findRow lab2 (rowsUpd lab c v rows) = findRow lab2 rows := by
  intro rows
  induction rows with
  | nil => rfl
  | cons rl t ih =>
    have h4 : ¬ lab = lab2 := fun h5 => hne h5.symm
    by_cases h : rl.1 = lab
    · have h2 : ¬ rl.1 = lab2 := fun h3 => hne (h3.symm.trans h)
      simp [rowsUpd, findRow, h, h2, h4, hne, ih]
    · by_cases h2 : rl.1 = lab2
      · simp [rowsUpd, findRow, h, h2, h4, hne]
      · simp [rowsUpd, findRow, h, h2, h4, hne, ih]

/-- `findRow` over an append, found in the first part. -/
theorem findRow_append_of_some (lab : Int) (rl : RowP) :
    ∀ (rows l2 : List RowP), findRow lab rows = some rl →
    findRow lab (rows ++ l2) = some rl := by
  intro rows
  induction rows with
  | nil => intro l2 h; exact Option.noConfusion h
  | cons r0 t ih =>
    intro l2 h
    by_cases h2 : r0.1 = lab
    · simp only [findRow, if_pos h2] at h
      simp only [List.cons_append, findRow, if_pos h2]
      exact h
    · simp only [findRow, if_neg h2] at h
      simp only [List.cons_append, findRow, if_neg h2]
      exact ih l2 h

/-- `findRow` over an append, absent from the first part. -/
theorem findRow_append_of_none (lab : Int) :
    ∀ (rows l2 : List RowP), findRow lab rows = none →
    findRow lab (rows ++ l2) = findRow lab l2 := by
  intro rows
  induction rows with
  | nil => intro l2 _; rfl
  | cons r0 t ih =>
    intro l2 h
    by_cases h2 : r0.1 = lab
    · simp only [findRow, if_pos h2] at h
      exact Option.noConfusion h
    · simp only [findRow, if_neg h2] at h
      simp only [List.cons_append, findRow, if_neg h2]
      exact ih l2 h

/-- A label that `hasLabel` misses has no row. -/
theorem findRow_none_of_not_hasLabel (lab : Int) :
    ∀ rows : List RowP, hasLabel lab rows = false → findRow lab rows = none := by
  intro rows
  induction rows with
  | nil => intro _; rfl
  | cons rl t ih =>
    intro h
    by_cases h2 : rl.1 = lab
    · simp only [hasLabel, if_pos h2] at h
      exact Bool.noConfusion h
    · simp only [hasLabel, if_neg h2] at h
      simp only [findRow, if_neg h2]
      exact ih h

/-- The found row of a label carries that label and is a member. -/
theorem findRow_mem (lab : Int) :
    ∀ (rows : List RowP) (rl : RowP), findRow lab rows = some rl →
    rl ∈ rows ∧ rl.1 = lab := by
  intro rows
  induction rows with
  | nil => intro rl h; exact Option.noConfusion h
  | cons r0 t ih =>
    intro rl h
    by_cases h2 : r0.1 = lab
    · simp only [findRow, if_pos h2] at h
      cases h
      exact ⟨List.mem_cons_self _ _, h2⟩
    · simp only [findRow, if_neg h2] at h
      rcases ih rl h with ⟨hm, hl⟩
      exact ⟨List.mem_cons_of_mem _ hm, hl⟩

/-- Every row after a `rowsUpd` is an original row or an updated original
row (same label). -/
theorem mem_rowsUpd (lab : Int) (c : String) (v : PValue) :
    ∀ (rows : List RowP) (x : RowP), x ∈ rowsUpd lab c v rows →
    ∃ rl ∈ rows, x = rl ∨ x = (rl.1, aset rl.2 c v) := by
  intro rows
  induction rows with
  | nil => intro x h; exact absurd h (List.not_mem_nil x)
  | cons r0 t ih =>
    intro x h
    simp only [rowsUpd] at h
    rcases List.mem_cons.mp h with h2 | h2
    · by_cases h3 : r0.1 = lab
      · rw [if_pos h3] at h2
        exact ⟨r0, List.mem_cons_self _ _, Or.inr h2⟩
      · rw [if_neg h3] at h2
        exact ⟨r0, List.mem_cons_self _ _, Or.inl h2⟩
    · rcases ih x h2 with ⟨rl, hm, hor⟩
      exact ⟨rl, List.mem_cons_of_mem _ hm, hor⟩

/-- A label `hasLabel` finds has a first row. -/
theorem findRow_some_of_hasLabel (lab : Int) :
    ∀ rows : List RowP, hasLabel lab rows = true →
    ∃ rl : RowP, findRow lab rows = some rl := by
  intro rows
  induction rows with
  | nil => intro h; exact absurd h (by simp [hasLabel])
  | cons r0 t ih =>
    intro h
    by_cases h2 : r0.1 = lab
    · exact ⟨r0, by simp [findRow, h2]⟩
    · simp only [hasLabel, if_neg h2] at h
      rcases ih h with ⟨rl, hrl⟩
      exact ⟨rl, by simp [findRow, h2, hrl]⟩

/-- Writing a cell then reading it back. -/
theorem cell_locWrite_same (df : DataFrame) (lab : Int) (c : String) (v : PValue) :
    (df.locWrite lab c v).cell lab c = v := by
  unfold DataFrame.locWrite DataFrame.cell
  by_cases h : hasLabel lab df.rows
  · rw [if_pos h]
    rw [findRow_rowsUpd_self]
    rcases findRow_some_of_hasLabel lab df.rows h with ⟨rl, hrl⟩
    rw [hrl]
    exact cellOfRow_aset_self rl.2 c v
  · rw [if_neg h]
    have hfalse : hasLabel lab df.rows = false := by
      cases hb : hasLabel lab df.rows
      · rfl
      · exact absurd hb h
    rw [findRow_append_of_none lab df.rows _
      (findRow_none_of_not_hasLabel lab df.rows hfalse)]
    simp only [findRow, if_pos rfl]
    exact cellOfRow_aset_self [] c v

/-- A write to one label does not change any cell of another label. -/
theorem cell_locWrite_label_ne (df : DataFrame) (lab lab2 : Int) (c c2 : String)
    (v : PValue) (hne : lab2 ≠ lab) :
    (df.locWrite lab c v).cell lab2 c2 = df.cell lab2 c2 := by
  unfold DataFrame.locWrite DataFrame.cell
  by_cases h : hasLabel lab df.rows
  · rw [if_pos h, findRow_rowsUpd_ne lab lab2 c v hne]
  · rw [if_neg h]
    cases hfr : findRow lab2 df.rows with
    | some rl => rw [findRow_append_of_some lab2 rl df.rows _ hfr]
    | none =>
      rw [findRow_append_of_none lab2 df.rows _ hfr]
      simp only [findRow]
      rw [if_neg (fun h2 : lab = lab2 => hne h2.symm)]

/-- A write to one column does not change any cell of another column. -/
theorem cell_locWrite_col_ne (df : DataFrame) (lab lab2 : Int) (c c2 : String)
    (v : PValue) (hne : c2 ≠ c) :
    (df.locWrite lab c v).cell lab2 c2 = df.cell lab2 c2 := by
  by_cases hlab : lab2 = lab
  · subst hlab
    unfold DataFrame.locWrite DataFrame.cell
    by_cases h : hasLabel lab2 df.rows
    · rw [if_pos h, findRow_rowsUpd_self]
      cases hfr : findRow lab2 df.rows with
      | some rl => exact cellOfRow_aset_ne rl.2 c c2 v hne
      | none => rfl
    · rw [if_neg h]
      have hfalse : hasLabel lab2 df.rows = false := by
        cases hb : hasLabel lab2 df.rows
        · rfl
        · exact absurd hb h
      have hnone := findRow_none_of_not_hasLabel lab2 df.rows hfalse
      rw [findRow_append_of_none lab2 df.rows _ hnone, hnone]
      have h5 : ¬ c = c2 := fun h2 => hne h2.symm
      simp [findRow, cellOfRow, alookup, h5]
  · exact cell_locWrite_label_ne df lab lab2 c c2 v (fun h2 => hlab h2)

/-- The columns only grow under a write. -/
theorem mem_cols_locWrite_mono (df : DataFrame) (lab : Int) (c : String) (v : PValue)
    (x : String) (hx : x ∈ df.cols) : x ∈ (df.locWrite lab c v).cols := by
  unfold DataFrame.locWrite
  by_cases h : hasLabel lab df.rows
  · rw [if_pos h]
    by_cases h2 : c ∈ df.cols
    · rw [if_pos h2]; exact hx
    · rw [if_neg h2]; exact List.mem_append_left _ hx
  · rw [if_neg h]
    by_cases h2 : c ∈ df.cols
    · rw [if_pos h2]; exact hx
    · rw [if_neg h2]; exact List.mem_append_left _ hx

/-- A write adds at most its own column name. -/
theorem mem_cols_locWrite (df : DataFrame) (lab : Int) (c : String) (v : PValue)
    (x : String) (hx : x ∈ (df.locWrite lab c v).cols) : x ∈ df.cols ∨ x = c := by
  unfold DataFrame.locWrite at hx
  by_cases h : hasLabel lab df.rows
  · rw [if_pos h] at hx
    by_cases h2 : c ∈ df.cols
    · rw [if_pos h2] at hx
      exact Or.inl hx
    · rw [if_neg h2] at hx
      rcases List.mem_append.mp hx with h3 | h3
      · exact Or.inl h3
      · exact Or.inr (List.mem_singleton.mp h3)
  · rw [if_neg h] at hx
    by_cases h2 : c ∈ df.cols
    · rw [if_pos h2] at hx
      exact Or.inl hx
    · rw [if_neg h2] at hx
      rcases List.mem_append.mp hx with h3 | h3
      · exact Or.inl h3
      · exact Or.inr (List.mem_singleton.mp h3)

/-- A successful `.loc` read survives a write to a different column or a
different label. -/
theorem locRead_locWrite_stable (df : DataFrame) (lab lab2 : Int) (c c2 : String)
    (v w : PValue) (h : df.locRead lab2 c2 = some w) (hne : c2 ≠ c ∨ lab2 ≠ lab) :
    (df.locWrite lab c v).locRead lab2 c2 = some w := by
  unfold DataFrame.locRead at h
  by_cases hc : c2 ∈ df.cols
  · rw [if_pos hc] at h
    cases hfr : findRow lab2 df.rows with
    | none =>
      rw [hfr] at h
      exact Option.noConfusion h
    | some rl =>
      rw [hfr] at h
      unfold DataFrame.locRead
      rw [if_pos (mem_cols_locWrite_mono df lab c v c2 hc)]
      unfold DataFrame.locWrite
      by_cases hl : hasLabel lab df.rows
      · rw [if_pos hl]
        by_cases hlab : lab2 = lab
        · subst hlab
          rcases hne with hne2 | hne2
          · rw [findRow_rowsUpd_self, hfr]
            show some (cellOfRow (aset rl.2 c v) c2) = some w
            rw [cellOfRow_aset_ne rl.2 c c2 v hne2]
            exact h
          · exact absurd rfl hne2
        · rw [findRow_rowsUpd_ne lab lab2 c v hlab, hfr]
          exact h
      · rw [if_neg hl]
        rw [findRow_append_of_some lab2 rl df.rows _ hfr]
        exact h
  · rw [if_neg hc] at h
    exact Option.noConfusion h

/-- The rows filtered to another label are untouched by `rowsUpd`. -/
theorem rowsWithLabel_rowsUpd_ne (lab lab2 : Int) (c : String) (v : PValue)
    (hne : lab2 ≠ lab) :
    ∀ rows : List RowP, rowsWithLabel lab2 (rowsUpd lab c v rows) =
      rowsWithLabel lab2 rows := by
  intro rows
  induction rows with
  | nil => rfl
  | cons rl t ih =>
    have h4 : ¬ lab = lab2 := fun h5 => hne h5.symm
    by_cases h : rl.1 = lab
    · have h2 : ¬ rl.1 = lab2 := fun h3 => hne (h3.symm.trans h)
      simp [rowsUpd, rowsWithLabel, h, h2, h4, hne, ih]
    · by_cases h2 : rl.1 = lab2
      · simp [rowsUpd, rowsWithLabel, h, h2, h4, hne, ih]
      · simp [rowsUpd, rowsWithLabel, h, h2, h4, hne, ih]

/-- `rowsWithLabel` distributes over append. -/
theorem rowsWithLabel_append (lab : Int) :
    ∀ l1 l2 : List RowP, rowsWithLabel lab (l1 ++ l2) =
      rowsWithLabel lab l1 ++ rowsWithLabel lab l2 := by
  intro l1
  induction l1 with
  | nil => intro l2; rfl
  | cons rl t ih =>
    intro l2
    by_cases h : rl.1 = lab
    · simp [rowsWithLabel, h, ih]
    · simp [rowsWithLabel, h, ih]

/-- Rows selected by label are members carrying that label. -/
theorem mem_rowsWithLabel (lab : Int) :
    ∀ (rows : List RowP) (x : RowP), x ∈ rowsWithLabel lab rows →
    x ∈ rows ∧ x.1 = lab := by
  intro rows
  induction rows with
  | nil => intro x h; exact absurd h (List.not_mem_nil x)
  | cons rl t ih =>
    intro x h
    by_cases h2 : rl.1 = lab
    · rw [rowsWithLabel, if_pos h2] at h
      rcases List.mem_cons.mp h with h3 | h3
      · exact ⟨h3 ▸ List.mem_cons_self _ _, h3 ▸ h2⟩
      · rcases ih x h3 with ⟨hm, hl⟩
        exact ⟨List.mem_cons_of_mem _ hm, hl⟩
    · rw [rowsWithLabel, if_neg h2] at h
      rcases ih x h with ⟨hm, hl⟩
      exact ⟨List.mem_cons_of_mem _ hm, hl⟩

/-- `rowsWithLabel` commutes with a label-preserving row transformation. -/
theorem rowsWithLabel_map_keepLabel (lab : Int) (f : RowP → RowP)
    (hf : ∀ rl : RowP, (f rl).1 = rl.1) :
    ∀ rows : List RowP, rowsWithLabel lab (rows.map f) =
      (rowsWithLabel lab rows).map f := by
  intro rows
  induction rows with
  | nil => rfl
  | cons rl t ih =>
    by_cases h : rl.1 = lab
    · simp only [List.map_cons, rowsWithLabel, hf rl, if_pos h, ih, List.map_cons]
    · simp only [List.map_cons, rowsWithLabel, hf rl, if_neg h, ih]

/-- `findRow` commutes with a label-preserving row transformation. -/
theorem findRow_map_keepLabel (lab : Int) (f : RowP → RowP)
    (hf : ∀ rl : RowP, (f rl).1 = rl.1) :
    ∀ rows : List RowP, findRow lab (rows.map f) =
      Option.map f (findRow lab rows) := by
  intro rows
  induction rows with
  | nil => rfl
  | cons rl t ih =>
    by_cases h : rl.1 = lab
    · simp only [List.map_cons, findRow, hf rl, if_pos h]
      rfl
    · simp only [List.map_cons, findRow, hf rl, if_neg h, ih]

/-- A write to one label leaves the rows of another label untouched. -/
theorem rowsWithLabel_locWrite_ne (df : DataFrame) (lab lab2 : Int) (c : String)
    (v : PValue) (hne : lab2 ≠ lab) :
    rowsWithLabel lab2 (df.locWrite lab c v).rows = rowsWithLabel lab2 df.rows := by
  unfold DataFrame.locWrite
  by_cases h : hasLabel lab df.rows
  · rw [if_pos h]
    exact rowsWithLabel_rowsUpd_ne lab lab2 c v hne df.rows
  · rw [if_neg h]
    show rowsWithLabel lab2 (df.rows ++ [(lab, [(c, v)])]) = _
    rw [rowsWithLabel_append]
    have h2 : rowsWithLabel lab2 [(lab, [(c, v)])] = [] := by
      have h4 : ¬ lab = lab2 := fun h3 => hne h3.symm
      simp [rowsWithLabel, h4]
    rw [h2, List.append_nil]

/-- Column creation only grows the column list. -/
theorem mem_cols_setColNaN_mono (df : DataFrame) (c x : String) (hx : x ∈ df.cols) :
    x ∈ (df.setColNaN c).cols := by
  unfold DataFrame.setColNaN
  by_cases h : c ∈ df.cols
  · rw [if_pos h]; exact hx
  · rw [if_neg h]; exact List.mem_append_left _ hx

/-- Column creation adds at most the created name. -/
theorem mem_cols_setColNaN (df : DataFrame) (c x : String)
    (hx : x ∈ (df.setColNaN c).cols) : x ∈ df.cols ∨ x = c := by
  unfold DataFrame.setColNaN at hx
  by_cases h : c ∈ df.cols
  · rw [if_pos h] at hx
    exact Or.inl hx
  · rw [if_neg h] at hx
    rcases List.mem_append.mp hx with h2 | h2
    · exact Or.inl h2
    · exact Or.inr (List.mem_singleton.mp h2)

/-- The created column is present afterwards. -/
theorem mem_cols_setColNaN_self (df : DataFrame) (c : String) :
    c ∈ (df.setColNaN c).cols := by
  unfold DataFrame.setColNaN
  by_cases h : c ∈ df.cols
  · rw [if_pos h]; exact h
  · rw [if_neg h]; exact List.mem_append_right _ (List.mem_singleton.mpr rfl)

/-- The rows after the column pre-creation loop: every row gets the listed
cells set to `NaN`, in order; labels and row order are untouched. -/
theorem foldl_setColNaN_rows :
    ∀ (names : List String) (df : DataFrame),
    (names.foldl DataFrame.setColNaN df).rows =
      df.rows.map (fun rl => (rl.1, naNFill names rl.2)) := by
  intro names
  induction names with
  | nil =>
    intro df
    exact (List.map_id df.rows).symm
  | cons n rest ih =>
    intro df
    show (rest.foldl DataFrame.setColNaN (df.setColNaN n)).rows = _
    rw [ih (df.setColNaN n)]
    show (df.rows.map (fun rl => (rl.1, aset rl.2 n PValue.vNaN))).map
      (fun rl => (rl.1, naNFill rest rl.2)) = _
    rw [List.map_map]
    rfl

/-- Column membership after the pre-creation loop, upward. -/
theorem mem_cols_foldl_setColNaN_mono :
    ∀ (names : List String) (df : DataFrame) (x : String), x ∈ df.cols →
    x ∈ (names.foldl DataFrame.setColNaN df).cols := by
  intro names
  induction names with
  | nil => intro df x hx; exact hx
  | cons n rest ih =>
    intro df x hx
    exact ih _ x (mem_cols_setColNaN_mono df n x hx)

/-- Column membership after the pre-creation loop, downward. -/
theorem mem_cols_foldl_setColNaN :
    ∀ (names : List String) (df : DataFrame) (x : String),
    x ∈ (names.foldl DataFrame.setColNaN df).cols → x ∈ df.cols ∨ x ∈ names := by
  intro names
  induction names with
  | nil => intro df x hx; exact Or.inl hx
  | cons n rest ih =>
    intro df x hx
    rcases ih _ x hx with h | h
    · rcases mem_cols_setColNaN df n x h with h2 | h2
      · exact Or.inl h2
      · exact Or.inr (h2 ▸ List.mem_cons_self _ _)
    · exact Or.inr (List.mem_cons_of_mem _ h)

/-- Every pre-created column is present afterwards. -/
theorem mem_cols_foldl_setColNaN_self :
    ∀ (names : List String) (df : DataFrame) (c : String), c ∈ names →
    c ∈ (names.foldl DataFrame.setColNaN df).cols := by
  intro names
  induction names with
  | nil => intro df c h; exact absurd h (List.not_mem_nil c)
  | cons n rest ih =>
    intro df c h
    rcases List.mem_cons.mp h with h2 | h2
    · subst h2
      exact mem_cols_foldl_setColNaN_mono rest _ c (mem_cols_setColNaN_self df c)
    · exact ih _ c h2

/-- A successful `.loc` read of a column outside the pre-created ones
survives the pre-creation loop. -/
theorem locRead_foldl_setColNaN (names : List String) (df : DataFrame) (lab : Int)
    (c : String) (w : PValue) (hc : c ∉ names) (h : df.locRead lab c = some w) :
    (names.foldl DataFrame.setColNaN df).locRead lab c = some w := by
  unfold DataFrame.locRead at h ⊢
  by_cases hcc : c ∈ df.cols
  · rw [if_pos hcc] at h
    rw [if_pos (mem_cols_foldl_setColNaN_mono names df c hcc)]
    rw [foldl_setColNaN_rows]
    rw [findRow_map_keepLabel lab (fun rl => (rl.1, naNFill names rl.2)) (fun rl => rfl)]
    cases hfr : findRow lab df.rows with
    | none =>
      rw [hfr] at h
      exact Option.noConfusion h
    | some rl =>
      rw [hfr] at h
      show some (cellOfRow (naNFill names rl.2) c) = some w
      unfold cellOfRow
      rw [alookup_naNFill_not_mem c names rl.2 hc]
      exact h
  · rw [if_neg hcc] at h
    exact Option.noConfusion h

/-! ## Lemmas about the property loop -/

/-- The property loop never touches another label's cells. -/
theorem propLoop_cell_label_ne (lab lab2 : Int) (ob : String → AttrRes) (c2 : String)
    (hne : lab2 ≠ lab) :
    ∀ (vp : List (String × String)) (df : DataFrame),
    (propLoop df lab ob vp).1.cell lab2 c2 = df.cell lab2 c2 := by
  intro vp
  induction vp with
  | nil => intro df; rfl
  | cons pa rest ih =>
    intro df
    show (match ob pa.2 with
      | AttrRes.ok v => propLoop (df.locWrite lab pa.1 v) lab ob rest
      | AttrRes.attrError => propLoop (df.locWrite lab pa.1 PValue.vNaN) lab ob rest
      | AttrRes.otherError => (df, true)).1.cell lab2 c2 = df.cell lab2 c2
    cases ob pa.2 with
    | ok v => rw [ih, cell_locWrite_label_ne df lab lab2 pa.1 c2 v hne]
    | attrError => rw [ih, cell_locWrite_label_ne df lab lab2 pa.1 c2 _ hne]
    | otherError => rfl

/-- The property loop never touches cells of columns outside its keys. -/
theorem propLoop_cell_key_ne (lab lab2 : Int) (ob : String → AttrRes) (c2 : String) :
    ∀ (vp : List (String × String)) (df : DataFrame), (∀ pa ∈ vp, pa.1 ≠ c2) →
    (propLoop df lab ob vp).1.cell lab2 c2 = df.cell lab2 c2 := by
  intro vp
  induction vp with
  | nil => intro df _; rfl
  | cons pa rest ih =>
    intro df hk
    have hpa : pa.1 ≠ c2 := hk pa (List.mem_cons_self _ _)
    have hrest : ∀ qa ∈ rest, qa.1 ≠ c2 := fun qa hqa => hk qa (List.mem_cons_of_mem _ hqa)
    show (match ob pa.2 with
      | AttrRes.ok v => propLoop (df.locWrite lab pa.1 v) lab ob rest
      | AttrRes.attrError => propLoop (df.locWrite lab pa.1 PValue.vNaN) lab ob rest
      | AttrRes.otherError => (df, true)).1.cell lab2 c2 = df.cell lab2 c2
    cases ob pa.2 with
    | ok v =>
      rw [ih _ hrest, cell_locWrite_col_ne df lab lab2 pa.1 c2 v (fun h => hpa h.symm)]
    | attrError =>
      rw [ih _ hrest, cell_locWrite_col_ne df lab lab2 pa.1 c2 _ (fun h => hpa h.symm)]
    | otherError => rfl

/-- The property loop adds only its own keys as columns. -/
theorem propLoop_cols (lab : Int) (ob : String → AttrRes) (x : String) :
    ∀ (vp : List (String × String)) (df : DataFrame),
    x ∈ (propLoop df lab ob vp).1.cols → x ∈ df.cols ∨ ∃ pa ∈ vp, x = pa.1 := by
  intro vp
  induction vp with
  | nil => intro df hx; exact Or.inl hx
  | cons pa rest ih =>
    intro df hx
    have step : ∀ v : PValue,
        x ∈ (propLoop (df.locWrite lab pa.1 v) lab ob rest).1.cols →
        x ∈ df.cols ∨ ∃ qa ∈ pa :: rest, x = qa.1 := by
      intro v hx2
      rcases ih _ hx2 with h | ⟨qa, hqa, hx3⟩
      · rcases mem_cols_locWrite df lab pa.1 v x h with h2 | h2
        · exact Or.inl h2
        · exact Or.inr ⟨pa, List.mem_cons_self _ _, h2⟩
      · exact Or.inr ⟨qa, List.mem_cons_of_mem _ hqa, hx3⟩
    revert hx
    show x ∈ (match ob pa.2 with
      | AttrRes.ok v => propLoop (df.locWrite lab pa.1 v) lab ob rest
      | AttrRes.attrError => propLoop (df.locWrite lab pa.1 PValue.vNaN) lab ob rest
      | AttrRes.otherError => (df, true)).1.cols → _
    cases ob pa.2 with
    | ok v => exact step v
    | attrError => exact step PValue.vNaN
    | otherError => exact fun hx => Or.inl hx

/-- A successful `.loc` read of a column outside the loop's keys survives
the property loop (any label). -/
theorem propLoop_locRead_stable (lab lab2 : Int) (ob : String → AttrRes) (c2 : String)
    (w : PValue) :
    ∀ (vp : List (String × String)) (df : DataFrame), (∀ pa ∈ vp, pa.1 ≠ c2) →
    df.locRead lab2 c2 = some w → (propLoop df lab ob vp).1.locRead lab2 c2 = some w := by
  intro vp
  induction vp with
  | nil => intro df _ h; exact h
  | cons pa rest ih =>
    intro df hk h
    have hpa : pa.1 ≠ c2 := hk pa (List.mem_cons_self _ _)
    have hrest : ∀ qa ∈ rest, qa.1 ≠ c2 := fun qa hqa => hk qa (List.mem_cons_of_mem _ hqa)
    show (match ob pa.2 with
      | AttrRes.ok v => propLoop (df.locWrite lab pa.1 v) lab ob rest
      | AttrRes.attrError => propLoop (df.locWrite lab pa.1 PValue.vNaN) lab ob rest
      | AttrRes.otherError => (df, true)).1.locRead lab2 c2 = some w
    cases ob pa.2 with
    | ok v =>
      exact ih _ hrest (locRead_locWrite_stable df lab lab2 pa.1 c2 v w h
        (Or.inl (fun h2 => hpa h2.symm)))
    | attrError =>
      exact ih _ hrest (locRead_locWrite_stable df lab lab2 pa.1 c2 _ w h
        (Or.inl (fun h2 => hpa h2.symm)))
    | otherError => exact h

/-- The property loop leaves the rows of other labels untouched. -/
theorem propLoop_rowsWithLabel_ne (lab lab2 : Int) (ob : String → AttrRes)
    (hne : lab2 ≠ lab) :
    ∀ (vp : List (String × String)) (df : DataFrame),
    rowsWithLabel lab2 (propLoop df lab ob vp).1.rows = rowsWithLabel lab2 df.rows := by
  intro vp
  induction vp with
  | nil => intro df; rfl
  | cons pa rest ih =>
    intro df
    show rowsWithLabel lab2 (match ob pa.2 with
      | AttrRes.ok v => propLoop (df.locWrite lab pa.1 v) lab ob rest
      | AttrRes.attrError => propLoop (df.locWrite lab pa.1 PValue.vNaN) lab ob rest
      | AttrRes.otherError => (df, true)).1.rows = rowsWithLabel lab2 df.rows
    cases ob pa.2 with
    | ok v => rw [ih, rowsWithLabel_locWrite_ne df lab lab2 pa.1 v hne]
    | attrError => rw [ih, rowsWithLabel_locWrite_ne df lab lab2 pa.1 _ hne]
    | otherError => rfl

/-- Under no non-`AttributeError` failure the property loop reports no
exception. -/
theorem propLoop_no_abort (lab : Int) (ob : String → AttrRes) :
    ∀ (vp : List (String × String)) (df : DataFrame),
    (∀ pa ∈ vp, ob pa.2 ≠ AttrRes.otherError) → (propLoop df lab ob vp).2 = false := by
  intro vp
  induction vp with
  | nil => intro df _; rfl
  | cons pa rest ih =>
    intro df hna
    have hpa := hna pa (List.mem_cons_self _ _)
    have hrest : ∀ qa ∈ rest, ob qa.2 ≠ AttrRes.otherError :=
      fun qa hqa => hna qa (List.mem_cons_of_mem _ hqa)
    show (match ob pa.2 with
      | AttrRes.ok v => propLoop (df.locWrite lab pa.1 v) lab ob rest
      | AttrRes.attrError => propLoop (df.locWrite lab pa.1 PValue.vNaN) lab ob rest
      | AttrRes.otherError => (df, true)).2 = false
    cases hob : ob pa.2 with
    | ok v => exact ih _ hrest
    | attrError => exact ih _ hrest
    | otherError => exact absurd hob hpa

/-- Under no non-`AttributeError` failure, every key's cell afterwards holds
the attribute value read for it (or `NaN` on `AttributeError`). -/
theorem propLoop_cell_mem (lab : Int) (ob : String → AttrRes) :
    ∀ (vp : List (String × String)) (df : DataFrame),
    (vp.map Prod.fst).Nodup → (∀ pa ∈ vp, ob pa.2 ≠ AttrRes.otherError) →
    ∀ pa ∈ vp, (propLoop df lab ob vp).1.cell lab pa.1 = attrVal (ob pa.2) := by
  intro vp
  induction vp with
  | nil => intro df _ _ pa hpa; exact absurd hpa (List.not_mem_nil pa)
  | cons qa rest ih =>
    intro df hnd hna pa hpa
    have hqa := hna qa (List.mem_cons_self _ _)
    have hrest : ∀ ra ∈ rest, ob ra.2 ≠ AttrRes.otherError :=
      fun ra hra => hna ra (List.mem_cons_of_mem _ hra)
    have hndr : (rest.map Prod.fst).Nodup := (List.nodup_cons.mp hnd).2
    have hqnotin : qa.1 ∉ rest.map Prod.fst := (List.nodup_cons.mp hnd).1
    have step : ∀ v : PValue, v = attrVal (ob qa.2) →
        ∀ pa2 ∈ qa :: rest,
        (propLoop (df.locWrite lab qa.1 v) lab ob rest).1.cell lab pa2.1 =
          attrVal (ob pa2.2) := by
      intro v hv pa2 hpa2
      rcases List.mem_cons.mp hpa2 with h2 | h2
      · subst h2
        rw [propLoop_cell_key_ne lab lab ob pa2.1 rest _ ?_]
        · rw [cell_locWrite_same, hv]
        · intro ra hra h3
          exact hqnotin (h3 ▸ List.mem_map_of_mem Prod.fst hra)
      · exact ih _ hndr hrest pa2 h2
    revert hpa
    show pa ∈ qa :: rest →
      (match ob qa.2 with
        | AttrRes.ok v => propLoop (df.locWrite lab qa.1 v) lab ob rest
        | AttrRes.attrError => propLoop (df.locWrite lab qa.1 PValue.vNaN) lab ob rest
        | AttrRes.otherError => (df, true)).1.cell lab pa.1 = attrVal (ob pa.2)
    cases hob : ob qa.2 with
    | ok v => exact fun hpa2 => step v (by rw [hob]; rfl) pa hpa2
    | attrError => exact fun hpa2 => step PValue.vNaN (by rw [hob]; rfl) pa hpa2
    | otherError => exact absurd hob hqa

/-! ## Lemmas about the mixing loop -/

/-- One mixing step is one write to the pair's column at the given label. -/
theorem mixStep_eq_locWrite (lib : ChemLib) (df : DataFrame) (lab : Int)
    (sv fs : String) (fv : ℚ) :
    ∃ v : PValue, mixStep lib df lab sv fs fv = df.locWrite lab (mixColName sv fs) v := by
  cases h1 : df.locRead lab "name" with
  | none => exact ⟨PValue.vNaN, by simp [mixStep, h1]⟩
  | some nv =>
    cases h2 : lib.mixtureHm nv sv fv (1 - fv) with
    | some q => exact ⟨PValue.vNum q, by simp [mixStep, h1, h2]⟩
    | none => exact ⟨PValue.vNaN, by simp [mixStep, h1, h2]⟩

/-- When the name cell reads back, the mixing step stores exactly the
mixture value for its pair. -/
theorem mixStep_cell (lib : ChemLib) (df : DataFrame) (lab : Int) (sv fs : String)
    (fv : ℚ) (nv : PValue) (hread : df.locRead lab "name" = some nv) :
    (mixStep lib df lab sv fs fv).cell lab (mixColName sv fs) = mixVal lib nv sv fv := by
  cases h2 : lib.mixtureHm nv sv fv (1 - fv) with
  | some q =>
    have hstep : mixStep lib df lab sv fs fv =
        df.locWrite lab (mixColName sv fs) (PValue.vNum q) := by
      simp [mixStep, hread, h2]
    have hval : mixVal lib nv sv fv = PValue.vNum q := by
      simp [mixVal, h2]
    rw [hstep, hval]
    exact cell_locWrite_same df lab _ _
  | none =>
    have hstep : mixStep lib df lab sv fs fv =
        df.locWrite lab (mixColName sv fs) PValue.vNaN := by
      simp [mixStep, hread, h2]
    have hval : mixVal lib nv sv fv = PValue.vNaN := by
      simp [mixVal, h2]
    rw [hstep, hval]
    exact cell_locWrite_same df lab _ _

/-- The mixing loop never touches another label's cells. -/
theorem mixLoop_cell_label_ne (lib : ChemLib) (lab lab2 : Int) (c2 : String)
    (hne : lab2 ≠ lab) :
    ∀ (pairs : List (String × String × ℚ)) (df : DataFrame),
    (mixLoop lib lab df pairs).cell lab2 c2 = df.cell lab2 c2 := by
  intro pairs
  induction pairs with
  | nil => intro df; rfl
  | cons p rest ih =>
    intro df
    show (mixLoop lib lab (mixStep lib df lab p.1 p.2.1 p.2.2) rest).cell lab2 c2 = _
    rcases mixStep_eq_locWrite lib df lab p.1 p.2.1 p.2.2 with ⟨v, hv⟩
    rw [ih, hv, cell_locWrite_label_ne df lab lab2 _ c2 v hne]

/-- The mixing loop never touches cells of columns outside its pairs. -/
theorem mixLoop_cell_col_ne (lib : ChemLib) (lab lab2 : Int) (c2 : String) :
    ∀ (pairs : List (String × String × ℚ)) (df : DataFrame),
    (∀ p ∈ pairs, mixColName p.1 p.2.1 ≠ c2) →
    (mixLoop lib lab df pairs).cell lab2 c2 = df.cell lab2 c2 := by
  intro pairs
  induction pairs with
  | nil => intro df _; rfl
  | cons p rest ih =>
    intro df hk
    have hp : mixColName p.1 p.2.1 ≠ c2 := hk p (List.mem_cons_self _ _)
    have hrest : ∀ q ∈ rest, mixColName q.1 q.2.1 ≠ c2 :=
      fun q hq => hk q (List.mem_cons_of_mem _ hq)
    show (mixLoop lib lab (mixStep lib df lab p.1 p.2.1 p.2.2) rest).cell lab2 c2 = _
    rcases mixStep_eq_locWrite lib df lab p.1 p.2.1 p.2.2 with ⟨v, hv⟩
    rw [ih _ hrest, hv, cell_locWrite_col_ne df lab lab2 _ c2 v (fun h => hp h.symm)]

/-- The mixing loop adds only its pairs' column names. -/
theorem mixLoop_cols (lib : ChemLib) (lab : Int) (x : String) :
    ∀ (pairs : List (String × String × ℚ)) (df : DataFrame),
    x ∈ (mixLoop lib lab df pairs).cols →
    x ∈ df.cols ∨ ∃ p ∈ pairs, x = mixColName p.1 p.2.1 := by
  intro pairs
  induction pairs with
  | nil => intro df hx; exact Or.inl hx
  | cons p rest ih =>
    intro df hx
    rcases ih _ hx with h | ⟨q, hq, h2⟩
    · rcases mixStep_eq_locWrite lib df lab p.1 p.2.1 p.2.2 with ⟨v, hv⟩
      rw [hv] at h
      rcases mem_cols_locWrite df lab _ v x h with h2 | h2
      · exact Or.inl h2
      · exact Or.inr ⟨p, List.mem_cons_self _ _, h2⟩
    · exact Or.inr ⟨q, List.mem_cons_of_mem _ hq, h2⟩

/-- A successful `.loc` read of a column outside the pairs' columns survives
the mixing loop. -/
theorem mixLoop_locRead_stable (lib : ChemLib) (lab lab2 : Int) (c2 : String)
    (w : PValue) :
    ∀ (pairs : List (String × String × ℚ)) (df : DataFrame),
    (∀ p ∈ pairs, mixColName p.1 p.2.1 ≠ c2) → df.locRead lab2 c2 = some w →
    (mixLoop lib lab df pairs).locRead lab2 c2 = some w := by
  intro pairs
  induction pairs with
  | nil => intro df _ h; exact h
  | cons p rest ih =>
    intro df hk h
    have hp : mixColName p.1 p.2.1 ≠ c2 := hk p (List.mem_cons_self _ _)
    have hrest : ∀ q ∈ rest, mixColName q.1 q.2.1 ≠ c2 :=
      fun q hq => hk q (List.mem_cons_of_mem _ hq)
    rcases mixStep_eq_locWrite lib df lab p.1 p.2.1 p.2.2 with ⟨v, hv⟩
    show (mixLoop lib lab (mixStep lib df lab p.1 p.2.1 p.2.2) rest).locRead lab2 c2 = _
    rw [hv]
    exact ih _ hrest (locRead_locWrite_stable df lab lab2 _ c2 v w h
      (Or.inl (fun h2 => hp h2.symm)))

/-- The mixing loop leaves the rows of other labels untouched. -/
theorem mixLoop_rowsWithLabel_ne (lib : ChemLib) (lab lab2 : Int) (hne : lab2 ≠ lab) :
    ∀ (pairs : List (String × String × ℚ)) (df : DataFrame),
    rowsWithLabel lab2 (mixLoop lib lab df pairs).rows = rowsWithLabel lab2 df.rows := by
  intro pairs
  induction pairs with
  | nil => intro df; rfl
  | cons p rest ih =>
    intro df
    rcases mixStep_eq_locWrite lib df lab p.1 p.2.1 p.2.2 with ⟨v, hv⟩
    show rowsWithLabel lab2 (mixLoop lib lab (mixStep lib df lab p.1 p.2.1 p.2.2) rest).rows = _
    rw [ih, hv, rowsWithLabel_locWrite_ne df lab lab2 _ v hne]

/-- When the name cell reads back as `nv` and the pairs carry distinct
column names none of which is `name`, every pair's cell afterwards holds its
mixture value. -/
theorem mixLoop_cell_mem (lib : ChemLib) (lab : Int) (nv : PValue) :
    ∀ (pairs : List (String × String × ℚ)) (df : DataFrame),
    df.locRead lab "name" = some nv →
    (pairs.map (fun p => mixColName p.1 p.2.1)).Nodup →
    (∀ p ∈ pairs, mixColName p.1 p.2.1 ≠ "name") →
    ∀ p ∈ pairs,
      (mixLoop lib lab df pairs).cell lab (mixColName p.1 p.2.1) =
        mixVal lib nv p.1 p.2.2 := by
  intro pairs
  induction pairs with
  | nil => intro df _ _ _ p hp; exact absurd hp (List.not_mem_nil p)
  | cons q rest ih =>
    intro df hread hnd hnm p hp
    have hndr : (rest.map (fun p => mixColName p.1 p.2.1)).Nodup :=
      (List.nodup_cons.mp hnd).2
    have hqnotin : mixColName q.1 q.2.1 ∉ rest.map (fun p => mixColName p.1 p.2.1) :=
      (List.nodup_cons.mp hnd).1
    have hnmr : ∀ r ∈ rest, mixColName r.1 r.2.1 ≠ "name" :=
      fun r hr => hnm r (List.mem_cons_of_mem _ hr)
    have hread2 : (mixStep lib df lab q.1 q.2.1 q.2.2).locRead lab "name" = some nv := by
      rcases mixStep_eq_locWrite lib df lab q.1 q.2.1 q.2.2 with ⟨v, hv⟩
      rw [hv]
      exact locRead_locWrite_stable df lab lab _ "name" v nv hread
        (Or.inl (fun h2 => hnm q (List.mem_cons_self _ _) h2.symm))
    show (mixLoop lib lab (mixStep lib df lab q.1 q.2.1 q.2.2) rest).cell lab
      (mixColName p.1 p.2.1) = mixVal lib nv p.1 p.2.2
    rcases List.mem_cons.mp hp with h2 | h2
    · subst h2
      rw [mixLoop_cell_col_ne lib lab lab (mixColName p.1 p.2.1) rest _ ?_]
      · exact mixStep_cell lib df lab p.1 p.2.1 p.2.2 nv hread
      · intro r hr h3
        exact hqnotin (h3 ▸ List.mem_map_of_mem (fun p2 => mixColName p2.1 p2.2.1) hr)
    · exact ih _ hread2 hndr hnmr p h2

/-! ## Lemmas about the row loop -/

/-- One row iteration never touches another label's cells. -/
theorem processRow_cell_label_ne (lib : ChemLib) (vp : List (String × String))
    (df : DataFrame) (i : Nat) (lab2 : Int) (c2 : String)
    (hne : lab2 ≠ Int.ofNat i) :
    (processRow lib vp df i).1.cell lab2 c2 = df.cell lab2 c2 := by
  cases h1 : df.locRead (Int.ofNat i) "name" with
  | none => simp only [processRow, h1]
  | some nv =>
    cases h2 : lib.chemical nv with
    | none => simp only [processRow, h1, h2]
    | some ob =>
      simp only [processRow, h1, h2]
      by_cases hab : (propLoop df (Int.ofNat i) ob vp).2
      · rw [if_pos hab]
        exact propLoop_cell_label_ne (Int.ofNat i) lab2 ob c2 hne vp df
      · rw [if_neg hab]
        rw [mixLoop_cell_label_ne lib (Int.ofNat i) lab2 c2 hne mixPairs _]
        exact propLoop_cell_label_ne (Int.ofNat i) lab2 ob c2 hne vp df

/-- A successful `.loc` read of a column outside the loop's keys and the
mixing columns survives one row iteration at any label. -/
theorem processRow_locRead_stable (lib : ChemLib) (vp : List (String × String))
    (df : DataFrame) (i : Nat) (lab2 : Int) (c2 : String) (w : PValue)
    (hk : ∀ pa ∈ vp, pa.1 ≠ c2) (hm : ∀ p ∈ mixPairs, mixColName p.1 p.2.1 ≠ c2)
    (h : df.locRead lab2 c2 = some w) :
    (processRow lib vp df i).1.locRead lab2 c2 = some w := by
  cases h1 : df.locRead (Int.ofNat i) "name" with
  | none =>
    simp only [processRow, h1]
    exact h
  | some nv =>
    cases h2 : lib.chemical nv with
    | none =>
      simp only [processRow, h1, h2]
      exact h
    | some ob =>
      simp only [processRow, h1, h2]
      by_cases hab : (propLoop df (Int.ofNat i) ob vp).2
      · rw [if_pos hab]
        exact propLoop_locRead_stable (Int.ofNat i) lab2 ob c2 w vp df hk h
      · rw [if_neg hab]
        dsimp only
        exact mixLoop_locRead_stable lib (Int.ofNat i) lab2 c2 w mixPairs
          ((propLoop df (Int.ofNat i) ob vp).1) hm
          (propLoop_locRead_stable (Int.ofNat i) lab2 ob c2 w vp df hk h)

/-- One row iteration leaves the rows of other labels untouched. -/
theorem processRow_rowsWithLabel_ne (lib : ChemLib) (vp : List (String × String))
    (df : DataFrame) (i : Nat) (lab2 : Int) (hne : lab2 ≠ Int.ofNat i) :
    rowsWithLabel lab2 (processRow lib vp df i).1.rows = rowsWithLabel lab2 df.rows := by
  cases h1 : df.locRead (Int.ofNat i) "name" with
  | none => simp only [processRow, h1]
  | some nv =>
    cases h2 : lib.chemical nv with
    | none => simp only [processRow, h1, h2]
    | some ob =>
      simp only [processRow, h1, h2]
      by_cases hab : (propLoop df (Int.ofNat i) ob vp).2
      · rw [if_pos hab]
        exact propLoop_rowsWithLabel_ne (Int.ofNat i) lab2 ob hne vp df
      · rw [if_neg hab]
        rw [mixLoop_rowsWithLabel_ne lib (Int.ofNat i) lab2 hne mixPairs _]
        exact propLoop_rowsWithLabel_ne (Int.ofNat i) lab2 ob hne vp df

/-- One row iteration adds only property-key or mixing columns. -/
theorem processRow_cols (lib : ChemLib) (vp : List (String × String))
    (df : DataFrame) (i : Nat) (x : String)
    (hx : x ∈ (processRow lib vp df i).1.cols) :
    x ∈ df.cols ∨ (∃ pa ∈ vp, x = pa.1) ∨ ∃ p ∈ mixPairs, x = mixColName p.1 p.2.1 := by
  revert hx
  cases h1 : df.locRead (Int.ofNat i) "name" with
  | none =>
    simp only [processRow, h1]
    exact fun hx => Or.inl hx
  | some nv =>
    cases h2 : lib.chemical nv with
    | none =>
      simp only [processRow, h1, h2]
      exact fun hx => Or.inl hx
    | some ob =>
      simp only [processRow, h1, h2]
      by_cases hab : (propLoop df (Int.ofNat i) ob vp).2
      · rw [if_pos hab]
        intro hx
        rcases propLoop_cols (Int.ofNat i) ob x vp df hx with h | h
        · exact Or.inl h
        · exact Or.inr (Or.inl h)
      · rw [if_neg hab]
        dsimp only
        intro hx
        rcases mixLoop_cols lib (Int.ofNat i) x mixPairs
          ((propLoop df (Int.ofNat i) ob vp).1) hx with h | h
        · rcases propLoop_cols (Int.ofNat i) ob x vp df h with h2 | h2
          · exact Or.inl h2
          · exact Or.inr (Or.inl h2)
        · exact Or.inr (Or.inr h)

/-- The final frame of the row loop over concatenated index lists. -/
theorem processLoop_df_append (lib : ChemLib) (vp : List (String × String)) :
    ∀ (l1 l2 : List Nat) (df : DataFrame),
    (processLoop lib vp df (l1 ++ l2)).1 =
      (processLoop lib vp (processLoop lib vp df l1).1 l2).1 := by
  intro l1
  induction l1 with
  | nil => intro l2 df; rfl
  | cons i rest ih =>
    intro l2 df
    simp only [List.cons_append, processLoop]
    exact ih l2 _

/-- Cells of labels outside the processed index list are never touched. -/
theorem processLoop_cell_ne (lib : ChemLib) (vp : List (String × String))
    (lab2 : Int) (c2 : String) :
    ∀ (idxs : List Nat) (df : DataFrame), (∀ j ∈ idxs, lab2 ≠ Int.ofNat j) →
    (processLoop lib vp df idxs).1.cell lab2 c2 = df.cell lab2 c2 := by
  intro idxs
  induction idxs with
  | nil => intro df _; rfl
  | cons i rest ih =>
    intro df hj
    show (processLoop lib vp (processRow lib vp df i).1 rest).1.cell lab2 c2 = _
    rw [ih _ (fun j hjr => hj j (List.mem_cons_of_mem _ hjr))]
    exact processRow_cell_label_ne lib vp df i lab2 c2 (hj i (List.mem_cons_self _ _))

/-- A successful read of a non-property non-mixing column survives the row
loop. -/
theorem processLoop_locRead_stable (lib : ChemLib) (vp : List (String × String))
    (lab2 : Int) (c2 : String) (w : PValue)
    (hk : ∀ pa ∈ vp, pa.1 ≠ c2) (hm : ∀ p ∈ mixPairs, mixColName p.1 p.2.1 ≠ c2) :
    ∀ (idxs : List Nat) (df : DataFrame), df.locRead lab2 c2 = some w →
    (processLoop lib vp df idxs).1.locRead lab2 c2 = some w := by
  intro idxs
  induction idxs with
  | nil => intro df h; exact h
  | cons i rest ih =>
    intro df h
    show (processLoop lib vp (processRow lib vp df i).1 rest).1.locRead lab2 c2 = _
    exact ih _ (processRow_locRead_stable lib vp df i lab2 c2 w hk hm h)

/-- Rows of labels outside the processed index list are never touched. -/
theorem processLoop_rowsWithLabel (lib : ChemLib) (vp : List (String × String))
    (lab2 : Int) :
    ∀ (idxs : List Nat) (df : DataFrame), (∀ j ∈ idxs, lab2 ≠ Int.ofNat j) →
    rowsWithLabel lab2 (processLoop lib vp df idxs).1.rows =
      rowsWithLabel lab2 df.rows := by
  intro idxs
  induction idxs with
  | nil => intro df _; rfl
  | cons i rest ih =>
    intro df hj
    show rowsWithLabel lab2 (processLoop lib vp (processRow lib vp df i).1 rest).1.rows = _
    rw [ih _ (fun j hjr => hj j (List.mem_cons_of_mem _ hjr))]
    exact processRow_rowsWithLabel_ne lib vp df i lab2 (hj i (List.mem_cons_self _ _))

/-- The row loop adds only property-key or mixing columns. -/
theorem processLoop_cols (lib : ChemLib) (vp : List (String × String)) (x : String) :
    ∀ (idxs : List Nat) (df : DataFrame), x ∈ (processLoop lib vp df idxs).1.cols →
    x ∈ df.cols ∨ (∃ pa ∈ vp, x = pa.1) ∨ ∃ p ∈ mixPairs, x = mixColName p.1 p.2.1 := by
  intro idxs
  induction idxs with
  | nil => intro df hx; exact Or.inl hx
  | cons i rest ih =>
    intro df hx
    have hx2 : x ∈ (processLoop lib vp (processRow lib vp df i).1 rest).1.cols := hx
    rcases ih _ hx2 with h | h
    · exact processRow_cols lib vp df i x h
    · exact Or.inr h

/-! ## Facts about the fixed catalogs -/

/-- The mixing columns are 12 pairwise distinct names. -/
theorem mixingNames_nodup : mixingNames.Nodup := by decide

/-- No mixing column is called `name`. -/
theorem name_not_mixing : "name" ∉ mixingNames := by decide

/-- No supported property name is a mixing column name or `name`. -/
theorem supported_keys_fresh : ∀ kv ∈ supported_properties,
    kv.1 ∉ mixingNames ∧ kv.1 ≠ "name" := by decide

/-- Every fixed (solvent, fraction) pair occurs in the nested-loop list. -/
theorem mem_mixPairs (sv : String) (fr : String × ℚ) (hsv : sv ∈ solvents)
    (hfr : fr ∈ fractions) : (sv, fr.1, fr.2) ∈ mixPairs := by
  unfold mixPairs
  apply List.mem_flatten.mpr
  refine ⟨fractions.map (fun fr2 => (sv, fr2.1, fr2.2)), ?_, ?_⟩
  · exact List.mem_map_of_mem _ hsv
  · exact List.mem_map_of_mem _ hfr

/-- Splitting `range n` around an interior point. -/
theorem range_split (L n : Nat) (hL : L < n) :
    List.range n = List.range L ++ L :: List.range' (L + 1) (n - (L + 1)) := by
  rw [List.range_eq_range', List.range_eq_range']
  have h1 : List.range' 0 L ++ List.range' (0 + L) (n - L) = List.range' 0 ((n - L) + L) :=
    List.range'_append_1 0 L (n - L)
  have h2 : (n - L) + L = n := by omega
  have h3 : (0 : Nat) + L = L := by omega
  rw [h2, h3] at h1
  rw [← h1]
  congr 1
  have h4 : n - L = (n - (L + 1)) + 1 := by omega
  rw [h4, List.range'_succ]

/-! ## Lemmas about the `valid_properties` dict -/

/-- Every entry after a dict insertion is the inserted pair or an original
entry. -/
theorem mem_vpInsert : ∀ (d : List (String × String)) (k v : String)
    (x : String × String), x ∈ vpInsert d k v → x = (k, v) ∨ x ∈ d := by
  intro d k v
  induction d with
  | nil =>
    intro x hx
    exact Or.inl (List.mem_singleton.mp hx)
  | cons kv t ih =>
    intro x hx
    by_cases h : kv.1 = k
    · rw [vpInsert, if_pos h] at hx
      rcases List.mem_cons.mp hx with h2 | h2
      · exact Or.inl h2
      · exact Or.inr (List.mem_cons_of_mem _ h2)
    · rw [vpInsert, if_neg h] at hx
      rcases List.mem_cons.mp hx with h2 | h2
      · exact Or.inr (h2 ▸ List.mem_cons_self _ _)
      · rcases ih x h2 with h3 | h3
        · exact Or.inl h3
        · exact Or.inr (List.mem_cons_of_mem _ h3)

/-- A successful catalog lookup comes from a catalog entry. -/
theorem supLookup_mem : ∀ (l : List (String × String)) (p a : String),
    supLookup p l = some a → (p, a) ∈ l := by
  intro l
  induction l with
  | nil => intro p a h; exact Option.noConfusion h
  | cons kv t ih =>
    intro p a h
    by_cases h2 : kv.1 = p
    · rw [supLookup, if_pos h2] at h
      have h3 : (p, a) = kv := by
        rw [← h2, ← Option.some.inj h]
      exact h3 ▸ List.mem_cons_self _ _
    · rw [supLookup, if_neg h2] at h
      exact List.mem_cons_of_mem _ (ih p a h)

/-- A key carried by a catalog entry is found. -/
theorem supLookup_isSome_of_mem : ∀ (l : List (String × String)) (k v : String),
    (k, v) ∈ l → supLookup k l ≠ none := by
  intro l
  induction l with
  | nil => intro k v h; exact absurd h (List.not_mem_nil _)
  | cons kv t ih =>
    intro k v h
    by_cases h2 : kv.1 = k
    · rw [supLookup, if_pos h2]
      exact Option.noConfusion
    · rw [supLookup, if_neg h2]
      rcases List.mem_cons.mp h with h3 | h3
      · exact absurd (congrArg Prod.fst h3.symm) h2
      · exact ih k v h3

/-- Every `valid_properties` entry is a supported-catalog entry. -/
theorem validProps_mem_sup (ps : List String) :
    ∀ pa ∈ validProps ps, pa ∈ supported_properties := by
  have aux : ∀ (ps2 : List String) (d : List (String × String)),
      (∀ pa ∈ d, pa ∈ supported_properties) →
      ∀ pa ∈ ps2.foldl (fun d2 p =>
        match supLookup p supported_properties with
        | some a => vpInsert d2 p a
        | none => d2) d, pa ∈ supported_properties := by
    intro ps2
    induction ps2 with
    | nil => intro d hd pa hpa; exact hd pa hpa
    | cons p rest ih =>
      intro d hd pa hpa
      simp only [List.foldl_cons] at hpa
      cases hsl : supLookup p supported_properties with
      | none =>
        rw [hsl] at hpa
        exact ih d hd pa hpa
      | some a =>
        rw [hsl] at hpa
        refine ih _ ?_ pa hpa
        intro qa hqa
        rcases mem_vpInsert d p a qa hqa with h | h
        · exact h ▸ supLookup_mem supported_properties p a hsl
        · exact hd qa h
  exact aux ps [] (fun pa hpa => absurd hpa (List.not_mem_nil pa))

/-- Dict-insertion key sets: membership characterization. -/
theorem keys_vpInsert (d : List (String × String)) (k v : String) (x : String)
    (hx : x ∈ (vpInsert d k v).map Prod.fst) : x ∈ d.map Prod.fst ∨ x = k := by
  rcases List.mem_map.mp hx with ⟨pa, hpa, hfst⟩
  rcases mem_vpInsert d k v pa hpa with h | h
  · exact Or.inr (by rw [← hfst, h])
  · exact Or.inl (hfst ▸ List.mem_map_of_mem Prod.fst h)

/-- Dict insertion keeps the keys duplicate-free. -/
theorem keys_vpInsert_nodup : ∀ (d : List (String × String)) (k v : String),
    (d.map Prod.fst).Nodup → ((vpInsert d k v).map Prod.fst).Nodup := by
  intro d
  induction d with
  | nil => intro k v _; exact List.nodup_singleton k
  | cons kv t ih =>
    intro k v hnd
    rcases List.nodup_cons.mp hnd with ⟨hni, hndt⟩
    by_cases h : kv.1 = k
    · rw [vpInsert, if_pos h]
      simp only [List.map_cons]
      exact List.nodup_cons.mpr ⟨h ▸ hni, hndt⟩
    · rw [vpInsert, if_neg h]
      simp only [List.map_cons]
      refine List.nodup_cons.mpr ⟨?_, ih k v hndt⟩
      intro hmem
      rcases keys_vpInsert t k v kv.1 hmem with h2 | h2
      · exact hni h2
      · exact h h2

/-- The `valid_properties` keys are duplicate-free. -/
theorem validProps_keys_nodup (ps : List String) :
    ((validProps ps).map Prod.fst).Nodup := by
  have aux : ∀ (ps2 : List String) (d : List (String × String)),
      (d.map Prod.fst).Nodup →
      ((ps2.foldl (fun d2 p =>
        match supLookup p supported_properties with
        | some a => vpInsert d2 p a
        | none => d2) d).map Prod.fst).Nodup := by
    intro ps2
    induction ps2 with
    | nil => intro d hd; exact hd
    | cons p rest ih =>
      intro d hd
      simp only [List.foldl_cons]
      cases hsl : supLookup p supported_properties with
      | none => exact ih d hd
      | some a => exact ih _ (keys_vpInsert_nodup d p a hd)
  exact aux ps [] List.nodup_nil

/-- Filtering the request list to its supported names does not change the
`valid_properties` dict. -/
theorem validProps_filter (ps : List String) :
    validProps (ps.filter (fun p => (supLookup p supported_properties).isSome)) =
      validProps ps := by
  have aux : ∀ (ps2 : List String) (d : List (String × String)),
      (ps2.filter (fun p => (supLookup p supported_properties).isSome)).foldl
        (fun d2 p =>
          match supLookup p supported_properties with
          | some a => vpInsert d2 p a
          | none => d2) d =
      ps2.foldl (fun d2 p =>
        match supLookup p supported_properties with
        | some a => vpInsert d2 p a
        | none => d2) d := by
    intro ps2
    induction ps2 with
    | nil => intro d; rfl
    | cons p rest ih =>
      intro d
      cases hsl : supLookup p supported_properties with
      | none =>
        simp [List.filter_cons, hsl]
        exact ih d
      | some a =>
        simp [List.filter_cons, hsl]
        exact ih _
  exact aux ps []

/-- An unsupported name never becomes a `valid_properties` key. -/
theorem validProps_key_unsupported (ps : List String) (p : String)
    (h : supLookup p supported_properties = none) :
    ∀ pa ∈ validProps ps, pa.1 ≠ p := by
  intro pa hpa heq
  have hmem : pa ∈ supported_properties := validProps_mem_sup ps pa hpa
  have : (p, pa.2) ∈ supported_properties := by
    rw [← heq]
    exact hmem
  exact supLookup_isSome_of_mem supported_properties p pa.2 this h

/-- Every unsupported requested name produces its warning line. -/
theorem warnMsg_mem_warningsOf (ps : List String) (p : String) (hp : p ∈ ps)
    (h : supLookup p supported_properties = none) : warnMsg p ∈ warningsOf ps := by
  unfold warningsOf
  apply List.mem_map_of_mem
  apply List.mem_filter.mpr
  exact ⟨hp, by rw [h]; rfl⟩

/-- The `valid_properties` keys avoid the mixing columns and `name`. -/
theorem validProps_keys_fresh (ps : List String) :
    ∀ pa ∈ validProps ps, pa.1 ∉ mixingNames ∧ pa.1 ≠ "name" :=
  fun pa hpa => supported_keys_fresh pa (validProps_mem_sup ps pa hpa)

/-! ## Preservation of the mixing-cell invariant -/

/-- One mixing step writes a numeric value or `NaN` to the pair's column. -/
theorem mixStep_eq_locWrite_num (lib : ChemLib) (df : DataFrame) (lab : Int)
    (sv fs : String) (fv : ℚ) :
    ∃ v : PValue, numOrNaN v = true ∧
      mixStep lib df lab sv fs fv = df.locWrite lab (mixColName sv fs) v := by
  cases h1 : df.locRead lab "name" with
  | none => exact ⟨PValue.vNaN, rfl, by simp [mixStep, h1]⟩
  | some nv =>
    cases h2 : lib.mixtureHm nv sv fv (1 - fv) with
    | some q => exact ⟨PValue.vNum q, rfl, by simp [mixStep, h1, h2]⟩
    | none => exact ⟨PValue.vNaN, rfl, by simp [mixStep, h1, h2]⟩

/-- The cell at one column of a two-entry row. -/
theorem cellOfRow_singleton (c c2 : String) (v : PValue) :
    cellOfRow [(c, v)] c2 = if c = c2 then v else PValue.vNaN := by
  by_cases h : c = c2
  · simp [cellOfRow, alookup, h]
  · simp [cellOfRow, alookup, h]

/-- A write preserves the mixing-cell invariant when it goes to a
non-mixing column or stores a numeric-or-`NaN` value. -/
theorem mixOK_locWrite (df : DataFrame) (lab : Int) (c : String) (v : PValue)
    (h : c ∉ mixingNames ∨ numOrNaN v = true) (hdf : MixOK df) :
    MixOK (df.locWrite lab c v) := by
  intro rl hrl c2 hc2
  unfold DataFrame.locWrite at hrl
  by_cases hl : hasLabel lab df.rows
  · rw [if_pos hl] at hrl
    rcases mem_rowsUpd lab c v df.rows rl hrl with ⟨orig, horig, hor⟩
    rcases hor with h2 | h2
    · exact h2 ▸ hdf orig horig c2 hc2
    · rw [h2]
      by_cases hc : c2 = c
      · subst hc
        rw [cellOfRow_aset_self]
        rcases h with h3 | h3
        · exact absurd hc2 h3
        · exact h3
      · rw [cellOfRow_aset_ne orig.2 c c2 v hc]
        exact hdf orig horig c2 hc2
  · rw [if_neg hl] at hrl
    rcases List.mem_append.mp hrl with h2 | h2
    · exact hdf rl h2 c2 hc2
    · have h3 : rl = (lab, [(c, v)]) := List.mem_singleton.mp h2
      rw [h3]
      show numOrNaN (cellOfRow [(c, v)] c2) = true
      rw [cellOfRow_singleton]
      by_cases hc : c = c2
      · rw [if_pos hc]
        rcases h with h4 | h4
        · exact absurd (hc ▸ hc2) h4
        · exact h4
      · rw [if_neg hc]
        rfl

/-- After the pre-creation fold every mixing cell of every row is an
explicitly set `NaN`; in particular the invariant holds. -/
theorem naNFill_rows_cells (df : DataFrame) :
    ∀ rl ∈ (mixingNames.foldl DataFrame.setColNaN df).rows, ∀ c ∈ mixingNames,
    alookup c rl.2 = some PValue.vNaN := by
  intro rl hrl c hc
  rw [foldl_setColNaN_rows] at hrl
  rcases List.mem_map.mp hrl with ⟨orig, _, heq⟩
  rw [← heq]
  exact alookup_naNFill_mem c mixingNames orig.2 hc

/-- The invariant holds right after the pre-creation fold. -/
theorem mixOK_precreate (df : DataFrame) :
    MixOK (mixingNames.foldl DataFrame.setColNaN df) := by
  intro rl hrl c hc
  have h := naNFill_rows_cells df rl hrl c hc
  unfold cellOfRow
  rw [h]
  rfl

/-- The property loop preserves the invariant when its keys avoid the
mixing columns. -/
theorem mixOK_propLoop (lab : Int) (ob : String → AttrRes) :
    ∀ (vp : List (String × String)) (df : DataFrame),
    (∀ pa ∈ vp, pa.1 ∉ mixingNames) → MixOK df → MixOK (propLoop df lab ob vp).1 := by
  intro vp
  induction vp with
  | nil => intro df _ hdf; exact hdf
  | cons pa rest ih =>
    intro df hk hdf
    have hpa : pa.1 ∉ mixingNames := hk pa (List.mem_cons_self _ _)
    have hrest : ∀ qa ∈ rest, qa.1 ∉ mixingNames :=
      fun qa hqa => hk qa (List.mem_cons_of_mem _ hqa)
    show MixOK (match ob pa.2 with
      | AttrRes.ok v => propLoop (df.locWrite lab pa.1 v) lab ob rest
      | AttrRes.attrError => propLoop (df.locWrite lab pa.1 PValue.vNaN) lab ob rest
      | AttrRes.otherError => (df, true)).1
    cases ob pa.2 with
    | ok v => exact ih _ hrest (mixOK_locWrite df lab pa.1 v (Or.inl hpa) hdf)
    | attrError => exact ih _ hrest (mixOK_locWrite df lab pa.1 _ (Or.inl hpa) hdf)
    | otherError => exact hdf

/-- The mixing loop preserves the invariant. -/
theorem mixOK_mixLoop (lib : ChemLib) (lab : Int) :
    ∀ (pairs : List (String × String × ℚ)) (df : DataFrame),
    MixOK df → MixOK (mixLoop lib lab df pairs) := by
  intro pairs
  induction pairs with
  | nil => intro df hdf; exact hdf
  | cons p rest ih =>
    intro df hdf
    show MixOK (mixLoop lib lab (mixStep lib df lab p.1 p.2.1 p.2.2) rest)
    rcases mixStep_eq_locWrite_num lib df lab p.1 p.2.1 p.2.2 with ⟨v, hnum, hv⟩
    rw [hv]
    exact ih _ (mixOK_locWrite df lab _ v (Or.inr hnum) hdf)

/-- One row iteration preserves the invariant. -/
theorem mixOK_processRow (lib : ChemLib) (vp : List (String × String))
    (df : DataFrame) (i : Nat) (hk : ∀ pa ∈ vp, pa.1 ∉ mixingNames)
    (hdf : MixOK df) : MixOK (processRow lib vp df i).1 := by
  cases h1 : df.locRead (Int.ofNat i) "name" with
  | none =>
    simp only [processRow, h1]
    exact hdf
  | some nv =>
    cases h2 : lib.chemical nv with
    | none =>
      simp only [processRow, h1, h2]
      exact hdf
    | some ob =>
      simp only [processRow, h1, h2]
      by_cases hab : (propLoop df (Int.ofNat i) ob vp).2
      · rw [if_pos hab]
        exact mixOK_propLoop (Int.ofNat i) ob vp df hk hdf
      · rw [if_neg hab]
        dsimp only
        exact mixOK_mixLoop lib (Int.ofNat i) mixPairs _
          (mixOK_propLoop (Int.ofNat i) ob vp df hk hdf)

/-- The row loop preserves the invariant. -/
theorem mixOK_processLoop (lib : ChemLib) (vp : List (String × String))
    (hk : ∀ pa ∈ vp, pa.1 ∉ mixingNames) :
    ∀ (idxs : List Nat) (df : DataFrame), MixOK df →
    MixOK (processLoop lib vp df idxs).1 := by
  intro idxs
  induction idxs with
  | nil => intro df hdf; exact hdf
  | cons i rest ih =>
    intro df hdf
    show MixOK (processLoop lib vp (processRow lib vp df i).1 rest).1
    exact ih _ (mixOK_processRow lib vp df i hk hdf)

/-! ## Column monotonicity through the loops -/

/-- The property loop only grows the columns. -/
theorem propLoop_cols_mono (lab : Int) (ob : String → AttrRes) (x : String) :
    ∀ (vp : List (String × String)) (df : DataFrame), x ∈ df.cols →
    x ∈ (propLoop df lab ob vp).1.cols := by
  intro vp
  induction vp with
  | nil => intro df hx; exact hx
  | cons pa rest ih =>
    intro df hx
    show x ∈ (match ob pa.2 with
      | AttrRes.ok v => propLoop (df.locWrite lab pa.1 v) lab ob rest
      | AttrRes.attrError => propLoop (df.locWrite lab pa.1 PValue.vNaN) lab ob rest
      | AttrRes.otherError => (df, true)).1.cols
    cases ob pa.2 with
    | ok v => exact ih _ (mem_cols_locWrite_mono df lab pa.1 v x hx)
    | attrError => exact ih _ (mem_cols_locWrite_mono df lab pa.1 _ x hx)
    | otherError => exact hx

/-- The mixing loop only grows the columns. -/
theorem mixLoop_cols_mono (lib : ChemLib) (lab : Int) (x : String) :
    ∀ (pairs : List (String × String × ℚ)) (df : DataFrame), x ∈ df.cols →
    x ∈ (mixLoop lib lab df pairs).cols := by
  intro pairs
  induction pairs with
  | nil => intro df hx; exact hx
  | cons p rest ih =>
    intro df hx
    show x ∈ (mixLoop lib lab (mixStep lib df lab p.1 p.2.1 p.2.2) rest).cols
    rcases mixStep_eq_locWrite lib df lab p.1 p.2.1 p.2.2 with ⟨v, hv⟩
    rw [hv]
    exact ih _ (mem_cols_locWrite_mono df lab _ v x hx)

/-- One row iteration only grows the columns. -/
theorem processRow_cols_mono (lib : ChemLib) (vp : List (String × String))
    (df : DataFrame) (i : Nat) (x : String) (hx : x ∈ df.cols) :
    x ∈ (processRow lib vp df i).1.cols := by
  cases h1 : df.locRead (Int.ofNat i) "name" with
  | none =>
    simp only [processRow, h1]
    exact hx
  | some nv =>
    cases h2 : lib.chemical nv with
    | none =>
      simp only [processRow, h1, h2]
      exact hx
    | some ob =>
      simp only [processRow, h1, h2]
      by_cases hab : (propLoop df (Int.ofNat i) ob vp).2
      · rw [if_pos hab]
        exact propLoop_cols_mono (Int.ofNat i) ob x vp df hx
      · rw [if_neg hab]
        dsimp only
        exact mixLoop_cols_mono lib (Int.ofNat i) x mixPairs _
          (propLoop_cols_mono (Int.ofNat i) ob x vp df hx)

/-- The row loop only grows the columns. -/
theorem processLoop_cols_mono (lib : ChemLib) (vp : List (String × String))
    (x : String) :
    ∀ (idxs : List Nat) (df : DataFrame), x ∈ df.cols →
    x ∈ (processLoop lib vp df idxs).1.cols := by
  intro idxs
  induction idxs with
  | nil => intro df hx; exact hx
  | cons i rest ih =>
    intro df hx
    show x ∈ (processLoop lib vp (processRow lib vp df i).1 rest).1.cols
    exact ih _ (processRow_cols_mono lib vp df i x hx)

/-! ## Claim C5 -/

/-- C5: an unsupported requested property name (that is not already an input
column and not a mixing column name) produces its non-fatal warning line, is
excluded from the validated dict the row loop iterates over, never appears
as a column header of the written table, and the written frame is the same
as if the unsupported names had been dropped from the request — processing
of the supported names is unaffected. -/
theorem c5_unsupported_property_excluded (lib : ChemLib) (df : DataFrame)
    (properties : List String) (run_name : String) (p : String)
    (hp : p ∈ properties) (hunsup : supLookup p supported_properties = none)
    (hfresh : p ∉ df.cols) (hmix : p ∉ mixingNames) :
    warnMsg p ∈ (process_materials lib df properties run_name).warnings ∧
    (∀ pa ∈ validProps properties, pa.1 ≠ p) ∧
    p ∉ (process_materials lib df properties run_name).df.cols ∧
    (process_materials lib df properties run_name).df =
      (process_materials lib df
        (properties.filter (fun q => (supLookup q supported_properties).isSome))
        run_name).df := by
  refine ⟨?_, validProps_key_unsupported properties p hunsup, ?_, ?_⟩
  · show warnMsg p ∈ warningsOf properties
    exact warnMsg_mem_warningsOf properties p hp hunsup
  · intro hmem
    have hmem2 : p ∈ (processLoop lib (validProps properties)
        (mixingNames.foldl DataFrame.setColNaN df)
        (List.range (mixingNames.foldl DataFrame.setColNaN df).rows.length)).1.cols :=
      hmem
    rcases processLoop_cols lib (validProps properties) p _ _ hmem2 with h | h | h
    · rcases mem_cols_foldl_setColNaN mixingNames df p h with h2 | h2
      · exact hfresh h2
      · exact hmix h2
    · rcases h with ⟨pa, hpa, heq⟩
      exact validProps_key_unsupported properties p hunsup pa hpa heq.symm
    · rcases h with ⟨q, hq, heq⟩
      apply hmix
      rw [heq]
      exact List.mem_map_of_mem (fun p2 => mixColName p2.1 p2.2.1) hq
  · show (processLoop lib (validProps properties) _ _).1 =
      (processLoop lib (validProps (properties.filter
        (fun q => (supLookup q supported_properties).isSome))) _ _).1
    rw [validProps_filter]

/-- C5 witness: requesting the unsupported name `bogus` warns and the
written table has no `bogus` column. -/
theorem c5_unsupported_property_excluded_witness :
    supLookup "bogus" supported_properties = none ∧
    warnMsg "bogus" ∈ (process_materials libEcho dfOne ["density", "bogus"] "run").warnings ∧
    "bogus" ∉ (process_materials libEcho dfOne ["density", "bogus"] "run").df.cols :=
  ⟨by decide,
    (c5_unsupported_property_excluded libEcho dfOne ["density", "bogus"] "run" "bogus"
      (by decide) (by decide) (by decide) (by decide)).1,
    (c5_unsupported_property_excluded libEcho dfOne ["density", "bogus"] "run" "bogus"
      (by decide) (by decide) (by decide) (by decide)).2.2.1⟩

/-! ## Claim C6 -/

/-- C6: before any row is processed the loop pre-creates exactly one
mixing-enthalpy column per (solvent, fraction) pair of the fixed catalogs —
12 of them (4 solvents × 3 fractions) — each cell explicitly initialized to
the missing marker; and in the written table every mixing cell of every row
holds a numeric value or the missing marker, never anything else. -/
theorem c6_mixing_columns_initialized (lib : ChemLib) (df : DataFrame)
    (properties : List String) (run_name : String) :
    mixingNames.length = solvents.length * fractions.length ∧
    mixingNames.length = 12 ∧
    mixingNames.Nodup ∧
    (∀ c ∈ mixingNames, c ∈ (mixingNames.foldl DataFrame.setColNaN df).cols) ∧
    (∀ rl ∈ (mixingNames.foldl DataFrame.setColNaN df).rows, ∀ c ∈ mixingNames,
      alookup c rl.2 = some PValue.vNaN) ∧
    (∀ c ∈ mixingNames, c ∈ (process_materials lib df properties run_name).df.cols) ∧
    MixOK (process_materials lib df properties run_name).df := by
  refine ⟨by decide, by decide, mixingNames_nodup,
    fun c hc => mem_cols_foldl_setColNaN_self mixingNames df c hc,
    naNFill_rows_cells df, ?_, ?_⟩
  · intro c hc
    show c ∈ (processLoop lib (validProps properties)
      (mixingNames.foldl DataFrame.setColNaN df) _).1.cols
    exact processLoop_cols_mono lib (validProps properties) c _ _
      (mem_cols_foldl_setColNaN_self mixingNames df c hc)
  · show MixOK (processLoop lib (validProps properties)
      (mixingNames.foldl DataFrame.setColNaN df) _).1
    exact mixOK_processLoop lib (validProps properties)
      (fun pa hpa => (validProps_keys_fresh properties pa hpa).1) _ _
      (mixOK_precreate df)

/-- C6 witness: the first mixing column exists after pre-creation and in the
written table of a concrete run. -/
theorem c6_mixing_columns_initialized_witness :
    mixColName "water" "0.25" ∈ mixingNames ∧
    mixColName "water" "0.25" ∈
      (process_materials libEcho dfOne ["density"] "run").df.cols :=
  ⟨by decide,
    (c6_mixing_columns_initialized libEcho dfOne ["density"] "run").2.2.2.2.2.1
      (mixColName "water" "0.25") (by decide)⟩

/-! ## Claim C7 -/

/-- Pre-creating the mixing columns does not change the row count. -/
theorem df0_rows_length (df : DataFrame) :
    (mixingNames.foldl DataFrame.setColNaN df).rows.length = df.rows.length := by
  rw [foldl_setColNaN_rows]
  exact List.length_map _ _

/-- No mixing pair's column is called `name`. -/
theorem mixPairs_ne_name : ∀ p ∈ mixPairs, mixColName p.1 p.2.1 ≠ "name" :=
  fun _p hp heq => name_not_mixing
    (heq ▸ List.mem_map_of_mem (fun p2 => mixColName p2.1 p2.2.1) hp)

/-- A row iteration whose `Chemical` construction raises leaves the frame
untouched and prints the error. -/
theorem processRow_skip (lib : ChemLib) (vp : List (String × String))
    (df : DataFrame) (i : Nat) (nv : PValue)
    (h1 : df.locRead (Int.ofNat i) "name" = some nv)
    (h2 : lib.chemical nv = none) :
    processRow lib vp df i = (df, [rowErrMsg i, rowDoneMsg i]) := by
  simp only [processRow, h1, h2]

/-- The printed lines of the row loop over concatenated index lists. -/
theorem processLoop_logs_append (lib : ChemLib) (vp : List (String × String)) :
    ∀ (l1 l2 : List Nat) (df : DataFrame),
    (processLoop lib vp df (l1 ++ l2)).2 =
      (processLoop lib vp df l1).2 ++
        (processLoop lib vp (processLoop lib vp df l1).1 l2).2 := by
  intro l1
  induction l1 with
  | nil => intro l2 df; rfl
  | cons i rest ih =>
    intro l2 df
    show (processRow lib vp df i).2 ++
        (processLoop lib vp (processRow lib vp df i).1 (rest ++ l2)).2 = _
    rw [ih l2 _]
    rw [← List.append_assoc]
    rfl

/-- C7: a row whose display name fails to construct a chemistry object is
skipped in place: the error is logged (the per-row `except` print appears in
the run's output), every requested-property cell and every mixing cell of
that row ends as the missing marker (given the requested names are not
pre-existing cells of the input), and the run continues exactly as if that
iteration had been omitted — all other rows are processed normally. -/
theorem c7_bad_name_row_skipped (lib : ChemLib) (df : DataFrame)
    (properties : List String) (run_name : String) (L : Nat) (nv : PValue)
    (hL : L < df.rows.length)
    (hread : df.locRead (Int.ofNat L) "name" = some nv)
    (hchem : lib.chemical nv = none)
    (hfresh : ∀ rl ∈ df.rows, ∀ p ∈ properties, alookup p rl.2 = none) :
    (∀ rl ∈ rowsWithLabel (Int.ofNat L)
        (process_materials lib df properties run_name).df.rows,
      (∀ p ∈ properties, cellOfRow rl.2 p = PValue.vNaN) ∧
      (∀ c ∈ mixingNames, cellOfRow rl.2 c = PValue.vNaN)) ∧
    (process_materials lib df properties run_name).df =
      (processLoop lib (validProps properties)
        (mixingNames.foldl DataFrame.setColNaN df)
        (List.range L ++ List.range' (L + 1) (df.rows.length - (L + 1)))).1 ∧
    rowErrMsg L ∈ (process_materials lib df properties run_name).logs := by
  have hkeys := validProps_keys_fresh properties
  have hkname : ∀ pa ∈ validProps properties, pa.1 ≠ "name" :=
    fun pa hpa => (hkeys pa hpa).2
  have hread0 : (mixingNames.foldl DataFrame.setColNaN df).locRead
      (Int.ofNat L) "name" = some nv :=
    locRead_foldl_setColNaN mixingNames df _ "name" nv name_not_mixing hread
  have hn0 : (mixingNames.foldl DataFrame.setColNaN df).rows.length = df.rows.length :=
    df0_rows_length df
  have hsplit : List.range (mixingNames.foldl DataFrame.setColNaN df).rows.length =
      List.range L ++ L :: List.range' (L + 1) (df.rows.length - (L + 1)) := by
    rw [hn0]
    exact range_split L df.rows.length hL
  have hrangeL : ∀ j ∈ List.range L, Int.ofNat L ≠ Int.ofNat j := by
    intro j hj heq
    have hjL : j < L := List.mem_range.mp hj
    have := Int.ofNat.inj heq
    omega
  have hrest : ∀ j ∈ List.range' (L + 1) (df.rows.length - (L + 1)),
      Int.ofNat L ≠ Int.ofNat j := by
    intro j hj heq
    have hjL : L + 1 ≤ j := (List.mem_range'_1.mp hj).1
    have := Int.ofNat.inj heq
    omega
  have hread1 : (processLoop lib (validProps properties)
      (mixingNames.foldl DataFrame.setColNaN df) (List.range L)).1.locRead
      (Int.ofNat L) "name" = some nv :=
    processLoop_locRead_stable lib (validProps properties) (Int.ofNat L) "name" nv
      hkname mixPairs_ne_name (List.range L) _ hread0
  have hchain : (process_materials lib df properties run_name).df =
      (processLoop lib (validProps properties)
        (mixingNames.foldl DataFrame.setColNaN df)
        (List.range L ++ List.range' (L + 1) (df.rows.length - (L + 1)))).1 := by
    show (processLoop lib (validProps properties)
      (mixingNames.foldl DataFrame.setColNaN df)
      (List.range (mixingNames.foldl DataFrame.setColNaN df).rows.length)).1 = _
    rw [hsplit, processLoop_df_append]
    show (processLoop lib (validProps properties)
      (processRow lib (validProps properties)
        (processLoop lib (validProps properties)
          (mixingNames.foldl DataFrame.setColNaN df) (List.range L)).1 L).1
      (List.range' (L + 1) (df.rows.length - (L + 1)))).1 = _
    rw [processRow_skip lib (validProps properties) _ L nv hread1 hchem]
    rw [← processLoop_df_append]
  have hlog : rowErrMsg L ∈ (process_materials lib df properties run_name).logs := by
    show rowErrMsg L ∈ (processLoop lib (validProps properties)
      (mixingNames.foldl DataFrame.setColNaN df)
      (List.range (mixingNames.foldl DataFrame.setColNaN df).rows.length)).2
    rw [hsplit]
    rw [processLoop_logs_append lib (validProps properties) (List.range L)
      (L :: List.range' (L + 1) (df.rows.length - (L + 1)))
      (mixingNames.foldl DataFrame.setColNaN df)]
    apply List.mem_append_right
    show rowErrMsg L ∈ (processRow lib (validProps properties)
        (processLoop lib (validProps properties)
          (mixingNames.foldl DataFrame.setColNaN df) (List.range L)).1 L).2 ++
      (processLoop lib (validProps properties)
        (processRow lib (validProps properties)
          (processLoop lib (validProps properties)
            (mixingNames.foldl DataFrame.setColNaN df) (List.range L)).1 L).1
        (List.range' (L + 1) (df.rows.length - (L + 1)))).2
    rw [processRow_skip lib (validProps properties) _ L nv hread1 hchem]
    exact List.mem_append_left _ (List.mem_cons_self _ _)
  refine ⟨?_, hchain, hlog⟩
  intro rl hrl
  rw [hchain] at hrl
  have hlabels : ∀ j ∈ List.range L ++ List.range' (L + 1) (df.rows.length - (L + 1)),
      Int.ofNat L ≠ Int.ofNat j := by
    intro j hj
    rcases List.mem_append.mp hj with h | h
    · exact hrangeL j h
    · exact hrest j h
  rw [processLoop_rowsWithLabel lib (validProps properties) (Int.ofNat L) _ _ hlabels]
    at hrl
  rw [foldl_setColNaN_rows] at hrl
  rw [rowsWithLabel_map_keepLabel (Int.ofNat L)
    (fun rl2 => (rl2.1, naNFill mixingNames rl2.2)) (fun rl2 => rfl)] at hrl
  rcases List.mem_map.mp hrl with ⟨orig, horig, heq⟩
  have horig2 : orig ∈ df.rows := (mem_rowsWithLabel (Int.ofNat L) df.rows orig horig).1
  constructor
  · intro p hp
    rw [← heq]
    show cellOfRow (naNFill mixingNames orig.2) p = PValue.vNaN
    unfold cellOfRow
    by_cases hpm : p ∈ mixingNames
    · rw [alookup_naNFill_mem p mixingNames orig.2 hpm]
      rfl
    · rw [alookup_naNFill_not_mem p mixingNames orig.2 hpm,
        hfresh orig horig2 p hp]
      rfl
  · intro c hc
    rw [← heq]
    show cellOfRow (naNFill mixingNames orig.2) c = PValue.vNaN
    unfold cellOfRow
    rw [alookup_naNFill_mem c mixingNames orig.2 hc]
    rfl

/-- C7 witness: in a two-row bank whose row 0 has a missing name, the whole
run produces the same frame as the run that skips iteration 0 — row 1 is
still processed — and the error print for row 0 appears in the log. -/
theorem c7_bad_name_row_skipped_witness :
    (process_materials libSkipNaN dfTwo ["density"] "run").df =
      (processLoop libSkipNaN (validProps ["density"])
        (mixingNames.foldl DataFrame.setColNaN dfTwo)
        (List.range 0 ++ List.range' (0 + 1) (dfTwo.rows.length - (0 + 1)))).1 ∧
    rowErrMsg 0 ∈ (process_materials libSkipNaN dfTwo ["density"] "run").logs :=
  (c7_bad_name_row_skipped libSkipNaN dfTwo ["density"] "run" 0 PValue.vNaN
    (by decide) (by decide) rfl (by decide)).2

/-! ## The processed-row characterization (shared by C8 and C9) -/

/-- A row iteration with a successful construction and no
non-`AttributeError` failure runs the full mixing loop on the frame left by
the property loop. -/
theorem processRow_noabort (lib : ChemLib) (vp : List (String × String))
    (df : DataFrame) (i : Nat) (nv : PValue) (ob : String → AttrRes)
    (h1 : df.locRead (Int.ofNat i) "name" = some nv)
    (h2 : lib.chemical nv = some ob)
    (h3 : (propLoop df (Int.ofNat i) ob vp).2 = false) :
    (processRow lib vp df i).1 =
      mixLoop lib (Int.ofNat i) (propLoop df (Int.ofNat i) ob vp).1 mixPairs := by
  simp only [processRow, h1, h2, h3, Bool.false_eq_true, if_false]

/-- In a run whose row `L` reads its name, constructs its chemistry object,
and suffers no non-`AttributeError` failure, the written table holds, for
that row, the attribute value (or `NaN` on `AttributeError`) in every valid
property cell and the mixture value (or `NaN` on failure) in every mixing
cell. -/
theorem processLoop_row_processed (lib : ChemLib) (df : DataFrame)
    (properties : List String) (run_name : String) (L : Nat) (nv : PValue)
    (ob : String → AttrRes)
    (hL : L < df.rows.length)
    (hread : df.locRead (Int.ofNat L) "name" = some nv)
    (hchem : lib.chemical nv = some ob)
    (hna : ∀ pa ∈ validProps properties, ob pa.2 ≠ AttrRes.otherError) :
    (∀ pa ∈ validProps properties,
      (process_materials lib df properties run_name).df.cell (Int.ofNat L) pa.1 =
        attrVal (ob pa.2)) ∧
    (∀ p ∈ mixPairs,
      (process_materials lib df properties run_name).df.cell (Int.ofNat L)
        (mixColName p.1 p.2.1) = mixVal lib nv p.1 p.2.2) := by
  have hkeys := validProps_keys_fresh properties
  have hkname : ∀ pa ∈ validProps properties, pa.1 ≠ "name" :=
    fun pa hpa => (hkeys pa hpa).2
  have hkmix : ∀ pa ∈ validProps properties, ∀ p ∈ mixPairs,
      mixColName p.1 p.2.1 ≠ pa.1 := by
    intro pa hpa p hp heq
    exact (hkeys pa hpa).1
      (heq ▸ List.mem_map_of_mem (fun p2 => mixColName p2.1 p2.2.1) hp)
  have hread0 : (mixingNames.foldl DataFrame.setColNaN df).locRead
      (Int.ofNat L) "name" = some nv :=
    locRead_foldl_setColNaN mixingNames df _ "name" nv name_not_mixing hread
  have hsplit : List.range (mixingNames.foldl DataFrame.setColNaN df).rows.length =
      List.range L ++ L :: List.range' (L + 1) (df.rows.length - (L + 1)) := by
    rw [df0_rows_length df]
    exact range_split L df.rows.length hL
  have hread1 : (processLoop lib (validProps properties)
      (mixingNames.foldl DataFrame.setColNaN df) (List.range L)).1.locRead
      (Int.ofNat L) "name" = some nv :=
    processLoop_locRead_stable lib (validProps properties) (Int.ofNat L) "name" nv
      hkname mixPairs_ne_name (List.range L) _ hread0
  have hab : (propLoop (processLoop lib (validProps properties)
      (mixingNames.foldl DataFrame.setColNaN df) (List.range L)).1
      (Int.ofNat L) ob (validProps properties)).2 = false :=
    propLoop_no_abort (Int.ofNat L) ob (validProps properties) _ hna
  have hread2 : (propLoop (processLoop lib (validProps properties)
      (mixingNames.foldl DataFrame.setColNaN df) (List.range L)).1
      (Int.ofNat L) ob (validProps properties)).1.locRead (Int.ofNat L) "name" =
      some nv :=
    propLoop_locRead_stable (Int.ofNat L) (Int.ofNat L) ob "name" nv
      (validProps properties) _ hkname hread1
  have hrest : ∀ j ∈ List.range' (L + 1) (df.rows.length - (L + 1)),
      Int.ofNat L ≠ Int.ofNat j := by
    intro j hj heq
    have hjL : L + 1 ≤ j := (List.mem_range'_1.mp hj).1
    have := Int.ofNat.inj heq
    omega
  have hchain : (process_materials lib df properties run_name).df =
      (processLoop lib (validProps properties)
        (processRow lib (validProps properties)
          (processLoop lib (validProps properties)
            (mixingNames.foldl DataFrame.setColNaN df) (List.range L)).1 L).1
        (List.range' (L + 1) (df.rows.length - (L + 1)))).1 := by
    show (processLoop lib (validProps properties)
      (mixingNames.foldl DataFrame.setColNaN df)
      (List.range (mixingNames.foldl DataFrame.setColNaN df).rows.length)).1 = _
    rw [hsplit, processLoop_df_append]
    rfl
  have hrow := processRow_noabort lib (validProps properties) _ L nv ob hread1
    hchem hab
  constructor
  · intro pa hpa
    rw [hchain]
    rw [processLoop_cell_ne lib (validProps properties) (Int.ofNat L) pa.1 _ _ hrest]
    rw [hrow]
    rw [mixLoop_cell_col_ne lib (Int.ofNat L) (Int.ofNat L) pa.1 mixPairs _
      (fun p hp => hkmix pa hpa p hp)]
    exact propLoop_cell_mem (Int.ofNat L) ob (validProps properties) _
      (validProps_keys_nodup properties) hna pa hpa
  · intro p hp
    rw [hchain]
    rw [processLoop_cell_ne lib (validProps properties) (Int.ofNat L)
      (mixColName p.1 p.2.1) _ _ hrest]
    rw [hrow]
    exact mixLoop_cell_mem lib (Int.ofNat L) nv mixPairs _ hread2
      mixingNames_nodup mixPairs_ne_name p hp

/-! ## Claim C8 -/

/-- C8 counterexample: with a chemistry object whose melting-point read
raises a non-`AttributeError` exception while its boiling-point read yields
5 and every mixture yields 3, the failure is *not* isolated: the
boiling-point cell and all mixing cells of the row end as the missing
marker instead of their computable values. -/
theorem c8_other_error_not_isolated_counterexample :
    obSplit "Tb" = AttrRes.ok (PValue.vNum 5) ∧
    libSplit.mixtureHm (PValue.vStr "methane") "water" (1/4) (1 - 1/4) = some 3 ∧
    (process_materials libSplit dfOne ["melting point", "boiling point"] "run").df.cell
      (Int.ofNat 0) "boiling point" = PValue.vNaN ∧
    (process_materials libSplit dfOne ["melting point", "boiling point"] "run").df.cell
      (Int.ofNat 0) (mixColName "water" "0.25") = PValue.vNaN :=
  ⟨by decide, rfl, by decide, by decide⟩

/-- C8 (amended): a per-property read failing with an attribute-lookup
failure (`AttributeError`) records the missing marker for that single cell
and is isolated — every validated property cell of the row holds exactly
the value its own read produced (or `NaN` on its own `AttributeError`) and
every mixing cell holds its mixture value — provided no read of the row
raises an exception of another class (such an exception escapes to the
per-row handler and aborts the rest of the row instead). -/
theorem c8_attr_error_isolated (lib : ChemLib) (df : DataFrame)
    (properties : List String) (run_name : String) (L : Nat) (nv : PValue)
    (ob : String → AttrRes)
    (hL : L < df.rows.length)
    (hread : df.locRead (Int.ofNat L) "name" = some nv)
    (hchem : lib.chemical nv = some ob)
    (hna : ∀ pa ∈ validProps properties, ob pa.2 ≠ AttrRes.otherError) :
    (∀ pa ∈ validProps properties, ob pa.2 = AttrRes.attrError →
      (process_materials lib df properties run_name).df.cell (Int.ofNat L) pa.1 =
        PValue.vNaN) ∧
    (∀ pa ∈ validProps properties,
      (process_materials lib df properties run_name).df.cell (Int.ofNat L) pa.1 =
        attrVal (ob pa.2)) ∧
    (∀ p ∈ mixPairs,
      (process_materials lib df properties run_name).df.cell (Int.ofNat L)
        (mixColName p.1 p.2.1) = mixVal lib nv p.1 p.2.2) := by
  have h := processLoop_row_processed lib df properties run_name L nv ob hL
    hread hchem hna
  refine ⟨?_, h.1, h.2⟩
  intro pa hpa hob
  rw [h.1 pa hpa, hob]
  rfl

/-- C8 witness: with every attribute read raising `AttributeError`, the
melting-point cell of row 0 is the missing marker while the water/0.25
mixing cell holds the mixture value 3. -/
theorem c8_attr_error_isolated_witness :
    (process_materials libAttrErr dfOne ["melting point"] "run").df.cell
      (Int.ofNat 0) "melting point" = PValue.vNaN ∧
    (process_materials libAttrErr dfOne ["melting point"] "run").df.cell
      (Int.ofNat 0) (mixColName "water" "0.25") =
      mixVal libAttrErr (PValue.vStr "methane") "water" (1/4) :=
  ⟨(c8_attr_error_isolated libAttrErr dfOne ["melting point"] "run" 0
      (PValue.vStr "methane") (fun _ => AttrRes.attrError) (by decide) (by decide)
      rfl (by decide)).1 ("melting point", "Tm") (by decide) rfl,
    (c8_attr_error_isolated libAttrErr dfOne ["melting point"] "run" 0
      (PValue.vStr "methane") (fun _ => AttrRes.attrError) (by decide) (by decide)
      rfl (by decide)).2.2 ("water", "0.25", 1/4)
      (mem_mixPairs "water" ("0.25", 1/4) (List.mem_cons_self _ _)
        (List.mem_cons_self _ _))⟩

/-! ## Claim C9 -/

/-- C9: for a processed row, every solvent of the fixed list and every mole
fraction of the fixed list gets its own mixing-enthalpy cell, holding the
value of the two-component mixture of the row's name and the solvent with
weights (fraction, 1 − fraction) — or the missing marker if that one
computation failed — independently per (solvent, fraction) pair. -/
theorem c9_mixture_cells_per_pair (lib : ChemLib) (df : DataFrame)
    (properties : List String) (run_name : String) (L : Nat) (nv : PValue)
    (ob : String → AttrRes)
    (hL : L < df.rows.length)
    (hread : df.locRead (Int.ofNat L) "name" = some nv)
    (hchem : lib.chemical nv = some ob)
    (hna : ∀ pa ∈ validProps properties, ob pa.2 ≠ AttrRes.otherError) :
    ∀ sv ∈ solvents, ∀ fr ∈ fractions,
      (process_materials lib df properties run_name).df.cell (Int.ofNat L)
        (mixColName sv fr.1) = mixVal lib nv sv fr.2 :=
  fun sv hsv fr hfr =>
    (processLoop_row_processed lib df properties run_name L nv ob hL hread hchem
      hna).2 (sv, fr.1, fr.2) (mem_mixPairs sv fr hsv hfr)

/-- C9 witness: row 0's water/0.25 cell holds the mixture value of its name
with water at weights (1/4, 3/4). -/
theorem c9_mixture_cells_per_pair_witness :
    (process_materials libSkipNaN dfOne ["density"] "run").df.cell (Int.ofNat 0)
      (mixColName "water" "0.25") =
      mixVal libSkipNaN (PValue.vStr "methane") "water" (1/4) :=
  c9_mixture_cells_per_pair libSkipNaN dfOne ["density"] "run" 0
    (PValue.vStr "methane") (fun _ => AttrRes.ok (PValue.vNum 1)) (by decide)
    (by decide) rfl (by decide) "water" (by decide) ("0.25", 1/4)
    (List.mem_cons_self _ _)

/-! ## Claim C10 -/

/-- C10: `process_materials` addresses rows by index label, not by position:
its loop runs `i` over `0..n-1` and uses `.loc[i, ...]`, so (a) every row
whose label lies outside `0..n-1` — such as the rows of the CID-indexed
table `generate_material_bank` produces — is silently skipped: in the
written table its original cells are unchanged and its mixing cells are the
pre-created `NaN`s, with no property column touched for it; and (b) on a
table whose labels disagree with the row positions, each iteration `i`
processes the row *labelled* `i` wherever it sits: with labels `[1, 0]` the
cell written for label 0 comes from the name of the row at position 1, and
vice versa. -/
theorem c10_rows_addressed_by_label (lib : ChemLib) (df : DataFrame)
    (properties : List String) (run_name : String) (lab : Int)
    (hout : ∀ j ∈ List.range df.rows.length, Int.ofNat j ≠ lab) :
    rowsWithLabel lab (process_materials lib df properties run_name).df.rows =
      (rowsWithLabel lab df.rows).map
        (fun rl => (rl.1, naNFill mixingNames rl.2)) ∧
    (process_materials libEcho dfSwap ["molecular weight"] "run").df.cell 0
      "molecular weight" = PValue.vStr "B" ∧
    (process_materials libEcho dfSwap ["molecular weight"] "run").df.cell 1
      "molecular weight" = PValue.vStr "A" := by
  refine ⟨?_, by decide, by decide⟩
  have hlabels : ∀ j ∈ List.range
      (mixingNames.foldl DataFrame.setColNaN df).rows.length, lab ≠ Int.ofNat j := by
    intro j hj
    rw [df0_rows_length df] at hj
    exact fun heq => hout j hj heq.symm
  show rowsWithLabel lab (processLoop lib (validProps properties)
    (mixingNames.foldl DataFrame.setColNaN df)
    (List.range (mixingNames.foldl DataFrame.setColNaN df).rows.length)).1.rows = _
  rw [processLoop_rowsWithLabel lib (validProps properties) lab _ _ hlabels]
  rw [foldl_setColNaN_rows]
  exact rowsWithLabel_map_keepLabel lab
    (fun rl2 => (rl2.1, naNFill mixingNames rl2.2)) (fun rl2 => rfl) df.rows

/-- C10 witness: on the CID-indexed two-row bank (labels 5 and 7, shape 2),
the rows labelled 5 survive with their original cells plus `NaN` mixing
cells — the loop over indices 0 and 1 never touches them. -/
theorem c10_rows_addressed_by_label_witness :
    rowsWithLabel 5 (process_materials libEcho dfCid ["molecular weight"]
        "run").df.rows =
      (rowsWithLabel 5 dfCid.rows).map
        (fun rl => (rl.1, naNFill mixingNames rl.2)) :=
  (c10_rows_addressed_by_label libEcho dfCid ["molecular weight"] "run" 5
    (by decide)).1

end PropExt
